import Mathlib

/-!
Verification development for the use-firestore subscription multiplexer.

The TypeScript sources are shallowly embedded as pure Lean functions and
explicit state machines:

- `serializeQuery` and its scalar `serialize` helper (src/lib/serializeQuery.ts)
- `ChunkedSnapshotListener` (src/lib/ChunkedSnapshotListener.ts)
- `CollectionService` (src/unnamed/part_004, the canonical draft the claims cite)
- `SubscriptionService` doc/query hooks (src/lib/SubscriptionService.ts)
- `deleteDocs` and `BatchOfBatches` (src/lib/deleteDocs.ts)

JavaScript objects used as string-keyed maps are embedded as association
lists, JS `Set` as an insertion-ordered duplicate-free list, `setTimeout`
as an explicit timer queue with a logical clock, network `onSnapshot`
subscriptions as events in a trace, and thrown exceptions as `Except`.
-/

/-- Association-list read, embedding a JS object property read `m[k]`. -/
def aget {α : Type} : List (String × α) → String → Option α
  | [], _ => none
  | (k1, v) :: rest, k => if k1 = k then some v else aget rest k

/-- Association-list write, embedding a JS object property write `m[k] = v`. -/
def aset {α : Type} : List (String × α) → String → α → List (String × α)
  | [], k, v => [(k, v)]
  | (k1, v1) :: rest, k, v =>
    if k1 = k then (k, v) :: rest else (k1, v1) :: aset rest k v

/-- Association-list delete, embedding the JS `delete m[k]` statement. -/
def aerase {α : Type} : List (String × α) → String → List (String × α)
  | [], _ => []
  | (k1, v1) :: rest, k =>
    if k1 = k then rest else (k1, v1) :: aerase rest k

/-- JS `Array.prototype.join(sep)`. -/
def jsJoin (sep : String) : List String → String
  | [] => ""
  | [x] => x
  | x :: xs => x ++ sep ++ jsJoin sep xs

/-- JS `Set.prototype.add`: appends the element unless already present,
preserving insertion order. -/
def addToJsSet (s : List String) (x : String) : List String :=
  if x ∈ s then s else s ++ [x]

/-- Adding every element of a list to a JS `Set` in order
(`ids.forEach((id) => set.add(id))`). -/
def addAllToJsSet (s : List String) (xs : List String) : List String :=
  xs.foldl addToJsSet s

/-- Modelled from the spec: the helper imported as `./helpers/chunk` by
ChunkedSnapshotListener is not among the repository files; per the spec it
"opens one subscription per 30-id chunk of the then-current id set", i.e.
standard fixed-size chunking into consecutive pieces of at most `n`
elements. -/
def chunkGo {α : Type} : Nat → List α → Nat → List (List α)
  | 0, _, _ => []
  | _ + 1, [], _ => []
  | fuel + 1, x :: xs, n =>
    if n = 0 then [x :: xs]
    else (x :: xs).take n :: chunkGo fuel ((x :: xs).drop n) n

/-- Fixed-size chunking, with the recursion fuelled by the list length so
that it is structural (hence computable by reduction). -/
def chunk {α : Type} (l : List α) (n : Nat) : List (List α) :=
  chunkGo l.length l n

/-- Digit character for a value below ten (JS number stringification helper). -/
def decDigit (d : Nat) : Char :=
  match d with
  | 0 => '0' | 1 => '1' | 2 => '2' | 3 => '3' | 4 => '4'
  | 5 => '5' | 6 => '6' | 7 => '7' | 8 => '8' | _ => '9'

/-- Decimal rendering of a natural number, as JS `String(n)` produces for
non-negative integral numbers. -/
def natToDec (n : Nat) : String :=
  if n < 10 then String.mk [decDigit n]
  else natToDec (n / 10) ++ String.mk [decDigit (n % 10)]
termination_by n
decreasing_by
  rename_i h
  exact Nat.div_lt_self (Nat.lt_of_lt_of_le (by omega) (Nat.le_of_not_lt h)) (by omega)

/-- JS `String(value)` for an integral number value. -/
def jsIntToString (n : Int) : String :=
  match n with
  | .ofNat m => natToDec m
  | .negSucc m => "-" ++ natToDec (m + 1)

/-- Decimal parser used to show `natToDec` is injective. -/
def decVal (l : List Char) : Nat :=
  l.foldl (fun acc c => acc * 10 + (c.toNat - 48)) 0

/-- The `intersect` helper (src/unnamed/part_015, fast_array_intersect):
single swap pass that moves a minimum-length array to the front. Processing
element `x` against the current front `h`: a shorter `x` becomes the new
front and `h` takes its position. -/
def intersectSwapPass (h : List String) (rest : List (List String)) :
    List String × List (List String) :=
  match rest with
  | [] => (h, [])
  | x :: xs =>
    if x.length < h.length then
      let (h1, tail) := intersectSwapPass x xs
      (h1, h :: tail)
    else
      let (h1, tail) := intersectSwapPass h xs
      (h1, x :: tail)

/-- Counting pass of `intersect`: for the `i`-th remaining array, bump the
count of each element currently at count `i`; if an array shares nothing
with the front array (`found = 0`), stop early with `none`. -/
def intersectCount (i : Nat) (rest : List (List String))
    (counts : List (String × Nat)) : Option (List (String × Nat)) :=
  match rest with
  | [] => some counts
  | arr :: rest1 =>
    let step := arr.foldl
      (fun (acc : List (String × Nat) × Nat) e =>
        match aget acc.1 e with
        | some c => if c = i then (aset acc.1 e (c + 1), acc.2 + 1) else acc
        | none => acc)
      (counts, 0)
    if step.2 = 0 then none else intersectCount (i + 1) rest1 step.1

/-- Output pass of `intersect`: keep the front-array elements seen in every
array, zeroing each count on first output so duplicates are dropped. -/
def intersectOutput (total : Nat) (front : List String)
    (counts : List (String × Nat)) : List String :=
  (front.foldl
    (fun (acc : List String × List (String × Nat)) e =>
      let c := aget acc.2 e
      let counts1 := if c.isSome then aset acc.2 e 0 else acc.2
      if c = some total then (acc.1 ++ [e], counts1) else (acc.1, counts1))
    ([], counts)).1

/-- The `intersect` helper of src/unnamed/part_015: elements present in all
of the given arrays. -/
def intersect (arrays : List (List String)) : List String :=
  match arrays with
  | [] => []
  | a0 :: rest =>
    let (front, others) := intersectSwapPass a0 rest
    let counts0 := front.foldl (fun m e => aset m e 1) []
    match intersectCount 1 others counts0 with
    | none => []
    | some counts => intersectOutput (rest.length + 1) front counts

/-! ## serializeQuery (src/lib/serializeQuery.ts)

Scalar values reach the serializer as the single entry of a Firestore wire
value object (`Object.values(value)[0]` in `serializeFilter`): the payload
of `{stringValue: s}` is the string itself, of `{nullValue: "NULL_VALUE"}`
the reserved string `NULL_VALUE`, of `{booleanValue: b}` the boolean, of a
numeric wrapper the number, and of `{referenceValue: p}` the full resource
path string. -/

/-- The TS `Serializable` type of src/lib/serializeQuery.ts:
`string | number | null | undefined | boolean` (numbers embedded as
integers). -/
inductive JsPrim where
  | str (s : String)
  | num (n : Int)
  | boolean (b : Bool)
  | null
  | undef
deriving DecidableEq

/-- A Firestore wire value object as stored in a filter: the tag names the
wrapped type, the payload is what `Object.values(value)[0]` returns. -/
inductive FsValue where
  | stringValue (s : String)
  | nullValue
  | booleanValue (b : Bool)
  | numberValue (n : Int)
  | referenceValue (p : String)
deriving DecidableEq

/-- `Object.values(value)[0]`: the payload of the single-entry wire value
object (`{nullValue: "NULL_VALUE"}` holds the reserved string, a reference
holds its full resource path). -/
def FsValue.objectValuesHead : FsValue → JsPrim
  | .stringValue s => .str s
  | .nullValue => .str "NULL_VALUE"
  | .booleanValue b => .boolean b
  | .numberValue n => .num n
  | .referenceValue p => .str p

structure FieldPath where
  segments : List String
deriving DecidableEq

structure SingleFilter where
  field : FieldPath
  op : String
  value : FsValue
deriving DecidableEq

inductive FirestoreFilter where
  | single (f : SingleFilter)
  | compound (op : String) (filters : List SingleFilter)
deriving DecidableEq

structure OrderBySpec where
  dir : String
  field : FieldPath
deriving DecidableEq

/-- The private `_query` shape serializeQuery reads (`Firestore3Query`). -/
structure Firestore3Query where
  path : List String
  explicitOrderBy : List OrderBySpec
  filters : List FirestoreFilter
  limit : Option Int
  limitType : JsPrim
  startAt : Option JsPrim
  endAt : Option JsPrim
deriving DecidableEq

/-- The scalar serializer of src/lib/serializeQuery.ts. The reserved string
`NULL_VALUE` is checked first; other strings are wrapped in quotes
(`value.replace(QUOTE, QUOTE)` replaces the first quote with a quote, a
no-op, so no escaping happens); numbers, null, undefined and booleans go
through `String(value)`. Total on `JsPrim`, which is exactly the TS
`Serializable` domain; the throwing branch handles values outside it. -/
def serialize (value : JsPrim) : String :=
  match value with
  | .str s => if s = "NULL_VALUE" then "null" else "\"" ++ s ++ "\""
  | .num n => jsIntToString n
  | .null => "null"
  | .undef => "undefined"
  | .boolean b => if b then "true" else "false"

/-- `serializeFilter`: `field/segments` joined, the operator, then the
serialized payload of the wire value object. -/
def serializeFilter (filter : SingleFilter) : String :=
  jsJoin "/" filter.field.segments ++ filter.op ++
    serialize filter.value.objectValuesHead

/-- `serializeCompoundFilter`: upper-cased operator around the
comma-joined sub-filters. -/
def serializeCompoundFilter (op : String) (filters : List SingleFilter) : String :=
  op.toUpper ++ "(" ++ jsJoin "," (filters.map serializeFilter) ++ ")"

def renderFilter : FirestoreFilter → String
  | .single f => serializeFilter f
  | .compound op fs => serializeCompoundFilter op fs

/-- `serializeQuery` of src/lib/serializeQuery.ts. -/
def serializeQuery (q : Firestore3Query) : String :=
  let path := jsJoin "/" q.path
  let orders := jsJoin ","
    (q.explicitOrderBy.map fun o => o.dir ++ "-" ++ jsJoin "/" o.field.segments)
  let filters := jsJoin " && " (q.filters.map renderFilter)
  let parameters := ["path=" ++ path]
  let parameters := if orders.length ≠ 0 then parameters ++ ["orders=" ++ orders]
    else parameters
  let parameters := if filters.length ≠ 0 then parameters ++ ["filters=" ++ filters]
    else parameters
  let parameters := match q.limit with
    | some n =>
      parameters ++ ["limit=" ++ serialize (.num n), "limitType=" ++ serialize q.limitType]
    | none => parameters
  let parameters := match q.startAt with
    | some v => parameters ++ ["startAt=" ++ serialize v]
    | none => parameters
  let parameters := match q.endAt with
    | some v => parameters ++ ["endAt=" ++ serialize v]
    | none => parameters
  jsJoin "&" parameters

/-- The exceptional pairs under which `serializeQuery` identifies
semantically distinct scalar filter values: null collides with the
reserved string NULL_VALUE, and a reference collides with the plain string
equal to its full resource path (hence also null with a reference whose
path is NULL_VALUE). -/
def serializeCollision (v1 v2 : FsValue) : Prop :=
  (v1 = .nullValue ∧ v2 = .stringValue "NULL_VALUE") ∨
  (v1 = .stringValue "NULL_VALUE" ∧ v2 = .nullValue) ∨
  (∃ p, v1 = .referenceValue p ∧ v2 = .stringValue p) ∨
  (∃ p, v1 = .stringValue p ∧ v2 = .referenceValue p) ∨
  (v1 = .nullValue ∧ v2 = .referenceValue "NULL_VALUE") ∨
  (v1 = .referenceValue "NULL_VALUE" ∧ v2 = .nullValue)

instance (v1 v2 : FsValue) : Decidable (serializeCollision v1 v2) := by
  unfold serializeCollision
  have h1 : ∀ w1 w2 : FsValue,
      Decidable (∃ p, w1 = .referenceValue p ∧ w2 = .stringValue p) := by
    intro w1 w2
    match w1, w2 with
    | .referenceValue p1, .stringValue p2 =>
      exact if h : p1 = p2 then .isTrue ⟨p1, rfl, by rw [h]⟩ else
        .isFalse (by rintro ⟨p, hp1, hp2⟩; cases hp1; cases hp2; exact h rfl)
    | .referenceValue p1, .nullValue => exact .isFalse (by rintro ⟨p, _, h⟩; cases h)
    | .referenceValue p1, .booleanValue b => exact .isFalse (by rintro ⟨p, _, h⟩; cases h)
    | .referenceValue p1, .numberValue n => exact .isFalse (by rintro ⟨p, _, h⟩; cases h)
    | .referenceValue p1, .referenceValue p2 => exact .isFalse (by rintro ⟨p, _, h⟩; cases h)
    | .stringValue s, w2 => exact .isFalse (by rintro ⟨p, h, _⟩; cases h)
    | .nullValue, w2 => exact .isFalse (by rintro ⟨p, h, _⟩; cases h)
    | .booleanValue b, w2 => exact .isFalse (by rintro ⟨p, h, _⟩; cases h)
    | .numberValue n, w2 => exact .isFalse (by rintro ⟨p, h, _⟩; cases h)
  have h2 : Decidable (∃ p, v1 = FsValue.stringValue p ∧ v2 = .referenceValue p) := by
    cases h1 v2 v1 with
    | isTrue h => exact .isTrue (by obtain ⟨p, ha, hb⟩ := h; exact ⟨p, hb, ha⟩)
    | isFalse h => exact .isFalse (by rintro ⟨p, ha, hb⟩; exact h ⟨p, hb, ha⟩)
  exact @instDecidableOr _ _ _ (@instDecidableOr _ _ _ (@instDecidableOr _ _ (h1 v1 v2)
    (@instDecidableOr _ _ h2 (@instDecidableOr _ _ _ _))))

/-! ## ChunkedSnapshotListener (src/lib/ChunkedSnapshotListener.ts)

Network subscriptions opened by `onSnapshot` are numbered by a per-listener
counter `localNext`; `unsubscribes` holds, per chunk, the handle of the
currently live subscription for that chunk. Subscribe and unsubscribe calls
against the store are reported as `ListenerEvent`s. -/

inductive ListenerStatus where
  | waiting
  | started
  | stopped
deriving DecidableEq

inductive ListenerEvent where
  | opened (sub : Nat) (chunkIds : List String)
  | closed (sub : Nat)
deriving DecidableEq

structure ChunkedSnapshotListener where
  /-- The `collectionRef`, embedded by its path. -/
  collectionPath : String
  /-- `ids`, a JS `Set`: insertion-ordered and duplicate-free. -/
  ids : List String
  chunks : List (List String)
  chunkIsLoaded : List Bool
  unsubscribes : List Nat
  status : ListenerStatus
  isLoaded : Bool
  /-- Model bookkeeping: the next fresh subscription handle. -/
  localNext : Nat
deriving DecidableEq

/-- The constructor: records the collection and adds every initial id to the
`ids` set, in `waiting` status. -/
def ChunkedSnapshotListener.make (collectionPath : String)
    (initialIds : List String) : ChunkedSnapshotListener :=
  { collectionPath
    ids := addAllToJsSet [] initialIds
    chunks := []
    chunkIsLoaded := []
    unsubscribes := []
    status := .waiting
    isLoaded := false
    localNext := 0 }

/-- `subscribeNewChunks(ids)`: splits the given ids into 30-id chunks and,
for each, opens a subscription and appends the chunk, its unsubscribe
handle, and a false loaded flag. -/
def ChunkedSnapshotListener.subscribeNewChunks (s : ChunkedSnapshotListener)
    (ids : List String) : ChunkedSnapshotListener × List ListenerEvent :=
  (chunk ids 30).foldl
    (fun (acc : ChunkedSnapshotListener × List ListenerEvent) c =>
      let s := acc.1
      let sub := s.localNext
      ({ s with
          chunks := s.chunks ++ [c]
          unsubscribes := s.unsubscribes ++ [sub]
          chunkIsLoaded := s.chunkIsLoaded ++ [false]
          localNext := sub + 1 },
        acc.2 ++ [.opened sub c]))
    (s, [])

/-- `start()`: moves to `started` (unconditionally — the status is not
checked) and subscribes a chunk per 30 ids of the then-current id set. -/
def ChunkedSnapshotListener.start (s : ChunkedSnapshotListener) :
    ChunkedSnapshotListener × List ListenerEvent :=
  ChunkedSnapshotListener.subscribeNewChunks { s with status := .started } s.ids

/-- `resubscribe(chunkIndex, chunk)`: closes the chunk's current
subscription, resets its loaded flag and the overall loaded flag, opens a
subscription for the grown chunk and stores it at the same index. -/
def ChunkedSnapshotListener.resubscribe (s : ChunkedSnapshotListener)
    (chunkIndex : Nat) (c : List String) :
    ChunkedSnapshotListener × List ListenerEvent :=
  let oldSub := (s.unsubscribes.get? chunkIndex).getD 0
  let newSub := s.localNext
  ({ s with
      chunkIsLoaded := s.chunkIsLoaded.set chunkIndex false
      isLoaded := false
      chunks := s.chunks.set chunkIndex c
      unsubscribes := s.unsubscribes.set chunkIndex newSub
      localNext := newSub + 1 },
    [.closed oldSub, .opened newSub c])

/-- `addIds(newIds)`: throws after shutdown; records the truly-new ids; in
`waiting` does nothing further; once started, packs new ids into the last
chunk's remaining capacity (resubscribing just that chunk) and opens new
chunks for the overflow. Returns the ids that were not already
subscribed. -/
def ChunkedSnapshotListener.addIds (s : ChunkedSnapshotListener)
    (newIds : List String) :
    Except String (ChunkedSnapshotListener × List String × List ListenerEvent) :=
  if s.status = .stopped then
    .error ("Tried to use snapshot listener for " ++ s.collectionPath ++
      " but it was shut down")
  else
    let idsToSubscribe := newIds.filter (fun i => ¬ i ∈ s.ids)
    let s := { s with ids := addAllToJsSet s.ids idsToSubscribe }
    if s.status = .waiting then
      .ok (s, idsToSubscribe, [])
    else if idsToSubscribe.length < 1 then
      .ok (s, idsToSubscribe, [])
    else
      let lastChunkIndex := s.chunks.length - 1
      match s.chunks.getLast? with
      | none =>
        let r := ChunkedSnapshotListener.subscribeNewChunks s idsToSubscribe
        .ok (r.1, idsToSubscribe, r.2)
      | some lastChunk =>
        let spaceLeftInLastChunk := 30 - lastChunk.length
        let idsForLastChunk := idsToSubscribe.take spaceLeftInLastChunk
        let idsForFutureChunks := idsToSubscribe.drop spaceLeftInLastChunk
        let r1 := if idsForLastChunk.length > 0 then
            ChunkedSnapshotListener.resubscribe s lastChunkIndex
              (lastChunk ++ idsForLastChunk)
          else (s, [])
        let r2 := if idsForFutureChunks.length > 0 then
            ChunkedSnapshotListener.subscribeNewChunks r1.1 idsForFutureChunks
          else (r1.1, [])
        .ok (r2.1, idsToSubscribe, r1.2 ++ r2.2)

/-- The per-chunk part of `handleSnapshot(chunkIndex)`: marks the chunk
loaded and flips the overall `isLoaded` flag once every chunk has received
a snapshot. (Forwarding to the service callback is done by the caller.) -/
def ChunkedSnapshotListener.markChunkLoaded (s : ChunkedSnapshotListener)
    (chunkIndex : Nat) : ChunkedSnapshotListener :=
  let s := { s with chunkIsLoaded := s.chunkIsLoaded.set chunkIndex true }
  if ¬ s.isLoaded ∧ s.chunkIsLoaded.all (fun b => b) then
    { s with isLoaded := true }
  else s

/-- `shutDown()`: closes every chunk subscription and moves to `stopped`
(the `unsubscribes` entries are not cleared). -/
def ChunkedSnapshotListener.shutDown (s : ChunkedSnapshotListener) :
    ChunkedSnapshotListener × List ListenerEvent :=
  ({ s with status := .stopped }, s.unsubscribes.map .closed)

/-- One step for a claim about arbitrary call sequences: applying `addIds`
with exception semantics, a thrown error leaving the state as it was. -/
def ChunkedSnapshotListener.applyAddIds (s : ChunkedSnapshotListener)
    (newIds : List String) : ChunkedSnapshotListener :=
  match ChunkedSnapshotListener.addIds s newIds with
  | .ok r => r.1
  | .error _ => s

/-- A sequence of `addIds` calls. -/
def ChunkedSnapshotListener.applyAddIdsAll (s : ChunkedSnapshotListener)
    (calls : List (List String)) : ChunkedSnapshotListener :=
  calls.foldl ChunkedSnapshotListener.applyAddIds s

/-! ## CollectionService (src/unnamed/part_004)

The service state, one logical clock tick queue for the deferred
`setTimeout(() => listener.start(), 1)` callbacks, and a trace of chunk
subscribe/unsubscribe events plus `onDocs`/`onError` callback invocations.
Listeners ever created are kept in `listenerHeap` under a fresh id: the
deferred tick closure captures the listener object itself, so it can still
reach a listener that `unregister` has already removed from
`snapshotListenersByCollectionPath`. -/

/-- The CollectionService `CachedDocument` (`{ id } & DocumentData`); the
document fields beyond the id are abstracted into one payload. -/
structure CollectionDocument where
  id : String
  data : Nat
deriving DecidableEq

inductive CollectionEvent where
  | chunkSubscribe (listenerId : Nat) (sub : Nat) (chunkIds : List String)
  | chunkUnsubscribe (listenerId : Nat) (sub : Nat)
  | onDocs (hookId : String) (docs : Option (List CollectionDocument))
  | onError (hookId : String) (message : String)
deriving DecidableEq

/-- A document change record of a query snapshot. -/
inductive DocChange where
  | added (doc : CollectionDocument)
  | modified (doc : CollectionDocument)
  | removed (id : String)
deriving DecidableEq

structure CollectionService where
  snapshotListenersByCollectionPath : List (String × Nat)
  subscriptionsByCollectionPath : List (String × List String)
  docsCacheByCollectionPath : List (String × List (String × CollectionDocument))
  docIdsByHookId : List (String × List String)
  /-- Model heap of every `ChunkedSnapshotListener` ever constructed, so a
  tick closure keeps its reference after removal from the path map. -/
  listenerHeap : List (Nat × ChunkedSnapshotListener)
  nextListenerId : Nat
  /-- Pending deferred-start ticks, by captured listener id. -/
  pendingTicks : List Nat
  trace : List CollectionEvent
deriving DecidableEq

def CollectionService.empty : CollectionService :=
  { snapshotListenersByCollectionPath := []
    subscriptionsByCollectionPath := []
    docsCacheByCollectionPath := []
    docIdsByHookId := []
    listenerHeap := []
    nextListenerId := 0
    pendingTicks := []
    trace := [] }

/-- Look a listener up in the heap. -/
def CollectionService.listenerAt (w : CollectionService) (lid : Nat) :
    Option ChunkedSnapshotListener :=
  (w.listenerHeap.find? (fun p => p.1 = lid)).map (fun p => p.2)

def CollectionService.setListener (w : CollectionService) (lid : Nat)
    (s : ChunkedSnapshotListener) : CollectionService :=
  { w with listenerHeap :=
      w.listenerHeap.map (fun p => if p.1 = lid then (lid, s) else p) }

/-- Append listener events to the service trace under the listener id. -/
def CollectionService.withTrace (w : CollectionService) (lid : Nat)
    (evs : List ListenerEvent) : CollectionService :=
  { w with trace := w.trace ++ evs.map (fun e =>
      match e with
      | .opened sub c => CollectionEvent.chunkSubscribe lid sub c
      | .closed sub => CollectionEvent.chunkUnsubscribe lid sub) }

/-- `registerDocsHook(hookId, collection, ids, onDocs, onError)`: ensures
the per-collection structures, appends the subscription, records the
hook's wanted ids; then either feeds the ids to the existing listener or
creates a fresh waiting listener and schedules its deferred start tick;
finally returns the cached docs when every requested id is cached. -/
def CollectionService.registerDocsHook (w : CollectionService) (hookId : String)
    (collectionPath : String) (ids : List String) :
    Except String (CollectionService × Option (List CollectionDocument)) := do
  let existingListener := aget w.snapshotListenersByCollectionPath collectionPath
  let collectionSubscriptions :=
    (aget w.subscriptionsByCollectionPath collectionPath).getD []
  let docsCache := (aget w.docsCacheByCollectionPath collectionPath).getD []
  let collectionSubscriptions := collectionSubscriptions ++ [hookId]
  let w := { w with
    subscriptionsByCollectionPath :=
      aset w.subscriptionsByCollectionPath collectionPath collectionSubscriptions
    docsCacheByCollectionPath :=
      aset w.docsCacheByCollectionPath collectionPath docsCache
    docIdsByHookId := aset w.docIdsByHookId hookId ids }
  let w ← match existingListener with
    | some lid =>
      match w.listenerAt lid with
      | none => Except.error "TypeError: listener missing from the heap"
      | some s => do
        let r ← ChunkedSnapshotListener.addIds s ids
        pure ((w.setListener lid r.1).withTrace lid r.2.2)
    | none =>
      let lid := w.nextListenerId
      let listener := ChunkedSnapshotListener.make collectionPath ids
      pure { w with
        listenerHeap := w.listenerHeap ++ [(lid, listener)]
        nextListenerId := lid + 1
        snapshotListenersByCollectionPath :=
          aset w.snapshotListenersByCollectionPath collectionPath lid
        pendingTicks := w.pendingTicks ++ [lid] }
  let idsMissing := ids.filter (fun id => (aget docsCache id).isNone)
  let docs := ids.filterMap (fun id => aget docsCache id)
  let hookIsFullyCached := idsMissing.length = 0
  return (w, if hookIsFullyCached then some docs else none)

/-- The `unregister` closure returned by `registerDocsHook`: removes the
subscription (throwing when already gone) and the hook's wanted ids; when
the collection still has subscriptions it stops there, otherwise it removes
the listener from the path map and shuts it down. -/
def CollectionService.unregisterDocsHook (w : CollectionService)
    (hookId : String) (collectionPath : String) : Except String CollectionService := do
  let collectionSubscriptions :=
    (aget w.subscriptionsByCollectionPath collectionPath).getD []
  match collectionSubscriptions.findIdx? (fun h => h = hookId) with
  | none =>
    Except.error ("Document listener for hook " ++ hookId ++
      " was already gone before unlisten() was called")
  | some index =>
    let collectionSubscriptions := collectionSubscriptions.eraseIdx index
    let w := { w with
      subscriptionsByCollectionPath :=
        aset w.subscriptionsByCollectionPath collectionPath collectionSubscriptions
      docIdsByHookId := aerase w.docIdsByHookId hookId }
    if collectionSubscriptions.length > 0 then
      return w
    else
      match aget w.snapshotListenersByCollectionPath collectionPath with
      | none =>
        Except.error ("No unsubscribe function found for collection " ++
          collectionPath ++ " even though " ++ hookId ++ " was subscribed?")
      | some lid =>
        match w.listenerAt lid with
        | none => Except.error "TypeError: listener missing from the heap"
        | some s =>
          let w := { w with
            snapshotListenersByCollectionPath :=
              aerase w.snapshotListenersByCollectionPath collectionPath }
          let r := ChunkedSnapshotListener.shutDown s
          return (w.setListener lid r.1).withTrace lid r.2

/-- The deferred tick scheduled by `registerDocsHook` firing: the callback
runs `listener.start()` on the listener object it captured, without
re-checking the registry state. -/
def CollectionService.fireFirstTick (w : CollectionService) : CollectionService :=
  match w.pendingTicks with
  | [] => w
  | lid :: rest =>
    let w := { w with pendingTicks := rest }
    match w.listenerAt lid with
    | none => w
    | some s =>
      let r := ChunkedSnapshotListener.start s
      (w.setListener lid r.1).withTrace lid r.2

/-- The cache-update loop of `CollectionService.handleSnapshot`: added and
modified change records replace the cached document and mark its id dirty,
removed records delete it from the cache. -/
def applyDocChanges (docsCache : List (String × CollectionDocument))
    (changes : List DocChange) :
    List (String × CollectionDocument) × List String :=
  changes.foldl
    (fun (acc : List (String × CollectionDocument) × List String) change =>
      match change with
      | .added doc => (aset acc.1 doc.id doc, acc.2 ++ [doc.id])
      | .modified doc => (aset acc.1 doc.id doc, acc.2 ++ [doc.id])
      | .removed id => (aerase acc.1 id, acc.2))
    (docsCache, [])

/-- The notification loop of `CollectionService.handleSnapshot` over the
collection's subscriptions, producing the emitted callback events. A hook
with no dirty ids is skipped, except that when it has missing ids and the
listener is fully loaded its `onError` fires and the whole loop returns
(a `return`, not a `continue`, so later subscriptions are not visited). A
hook with dirty ids gets `onDocs(undefined)` while ids are missing,
otherwise `onDocs` with its documents. -/
def notifySubscriptions (w : CollectionService) (collectionPath : String)
    (docsCache : List (String × CollectionDocument)) (dirtyIds : List String)
    (listenerIsLoaded : Bool) : List String → List CollectionEvent
  | [] => []
  | hookId :: rest =>
    let wanted := (aget w.docIdsByHookId hookId).getD []
    let dirtyIdsForHook := intersect [dirtyIds, wanted]
    let missingIds := wanted.filter (fun id => (aget docsCache id).isNone)
    if dirtyIdsForHook.length = 0 then
      if missingIds.length > 0 ∧ listenerIsLoaded then
        [CollectionEvent.onError hookId
          ("No document in collection " ++ collectionPath ++ " with id(s) " ++
            jsJoin "," missingIds)]
      else
        notifySubscriptions w collectionPath docsCache dirtyIds listenerIsLoaded rest
    else
      (if missingIds.length > 0 then
        [CollectionEvent.onDocs hookId none]
      else
        [CollectionEvent.onDocs hookId
          (some (wanted.filterMap (fun id => aget docsCache id)))]) ++
        notifySubscriptions w collectionPath docsCache dirtyIds listenerIsLoaded rest

/-- `CollectionService.handleSnapshot(collectionPath, querySnapshot)`:
updates the document cache from the change records, then notifies the
collection's subscriptions, reading the listener registered in the path
map for its `isLoaded` flag. -/
def CollectionService.handleSnapshot (w : CollectionService)
    (collectionPath : String) (changes : List DocChange) :
    Except String CollectionService := do
  let docsCache := (aget w.docsCacheByCollectionPath collectionPath).getD []
  let r := applyDocChanges docsCache changes
  let docsCache := r.1
  let dirtyIds := r.2
  let w := { w with
    docsCacheByCollectionPath :=
      aset w.docsCacheByCollectionPath collectionPath docsCache }
  let collectionSubscriptions :=
    (aget w.subscriptionsByCollectionPath collectionPath).getD []
  match aget w.snapshotListenersByCollectionPath collectionPath with
  | none => Except.error "TypeError: cannot read isLoaded of undefined"
  | some lid =>
    match w.listenerAt lid with
    | none => Except.error "TypeError: listener missing from the heap"
    | some listener =>
      let events := notifySubscriptions w collectionPath docsCache dirtyIds
        listener.isLoaded collectionSubscriptions
      return { w with trace := w.trace ++ events }

/-- A chunk snapshot arriving: the `ChunkedSnapshotListener.handleSnapshot`
closure marks the chunk loaded and forwards the snapshot to the service
callback `(snapshot) => this.handleSnapshot(collection.path, snapshot)`. -/
def CollectionService.deliverChunkSnapshot (w : CollectionService) (lid : Nat)
    (chunkIndex : Nat) (changes : List DocChange) :
    Except String CollectionService := do
  match w.listenerAt lid with
  | none => Except.error "TypeError: listener missing from the heap"
  | some s =>
    let s := ChunkedSnapshotListener.markChunkLoaded s chunkIndex
    let w := w.setListener lid s
    CollectionService.handleSnapshot w s.collectionPath changes

/-- Scripted operations against one `CollectionService`, for claims over
operation sequences. -/
inductive CollectionOp where
  | register (hookId : String) (collectionPath : String) (ids : List String)
  | unregister (hookId : String) (collectionPath : String)
  | tick
  | snapshot (lid : Nat) (chunkIndex : Nat) (changes : List DocChange)
deriving DecidableEq

def CollectionService.applyOp (w : CollectionService) :
    CollectionOp → Except String CollectionService
  | .register hookId collectionPath ids =>
    (w.registerDocsHook hookId collectionPath ids).map (fun r => r.1)
  | .unregister hookId collectionPath => w.unregisterDocsHook hookId collectionPath
  | .tick => .ok w.fireFirstTick
  | .snapshot lid chunkIndex changes => w.deliverChunkSnapshot lid chunkIndex changes

def CollectionService.runOps (w : CollectionService) :
    List CollectionOp → Except String CollectionService
  | [] => .ok w
  | op :: rest => do CollectionService.runOps (← w.applyOp op) rest

/-- The chunk subscriptions opened in a trace. -/
def openedChunkSubs (trace : List CollectionEvent) : List (Nat × Nat × List String) :=
  trace.filterMap (fun e =>
    match e with
    | .chunkSubscribe lid sub c => some (lid, sub, c)
    | _ => none)

/-- The chunk subscriptions closed in a trace. -/
def closedChunkSubs (trace : List CollectionEvent) : List (Nat × Nat) :=
  trace.filterMap (fun e =>
    match e with
    | .chunkUnsubscribe lid sub => some (lid, sub)
    | _ => none)

/-- The chunk subscriptions still live after a trace: opened and not
closed. -/
def liveChunkSubs (trace : List CollectionEvent) : List (Nat × Nat × List String) :=
  (openedChunkSubs trace).filter
    (fun s => ¬ (s.1, s.2.1) ∈ closedChunkSubs trace)

/-- The `onDocs` and `onError` callback invocations in a trace. -/
def callbackEvents (trace : List CollectionEvent) : List CollectionEvent :=
  trace.filter (fun e =>
    match e with
    | .onDocs _ _ => true
    | .onError _ _ => true
    | _ => false)

/-- A mid-burst CollectionService state: one waiting listener for the
collection holds the ids accumulated so far, its deferred start tick still
pending; used to state the registration-burst invariant. -/
def burstState (collectionPath : String) (accIds : List String)
    (hooks : List String) (docIds : List (String × List String)) : CollectionService :=
  { snapshotListenersByCollectionPath := [(collectionPath, 0)]
    subscriptionsByCollectionPath := [(collectionPath, hooks)]
    docsCacheByCollectionPath := [(collectionPath, [])]
    docIdsByHookId := docIds
    listenerHeap := [(0,
      { collectionPath
        ids := accIds
        chunks := []
        chunkIsLoaded := []
        unsubscribes := []
        status := .waiting
        isLoaded := false
        localNext := 0 })]
    nextListenerId := 1
    pendingTicks := [0]
    trace := [] }

/-! ## SubscriptionService (src/lib/SubscriptionService.ts)

State per the source's maps, plus a logical clock in milliseconds, the
queue of pending `setTimeout(unsubscribe, UNSUBSCRIBE_DELAY)` timers for
departing document-hook owners, a trace of store calls and callback
invocations, and a fresh-handle counter for `onSnapshot` subscriptions.
Listener callbacks and take-ownership closures are identified by the hook
id that created them (hook ids are unique per mount). -/

def UNSUBSCRIBE_DELAY : Nat := 100

/-- The SubscriptionService `CachedDocument`: id, fields payload, and the
`__path` tag, which only query snapshots attach (`{id, __path, ...data}`);
document snapshots build `{id, ...data}` with no tag. -/
structure CachedDocument where
  id : String
  pathTag : Option String
  data : Nat
deriving DecidableEq

inductive StoreCall where
  | subscribeDoc (path : String) (sub : Nat)
  | unsubscribeDoc (sub : Nat)
  | subscribeQuery (queryKey : String) (sub : Nat)
  | notifyDoc (hookId : String) (doc : CachedDocument)
  | notifyQuery (hookId : String) (docs : List CachedDocument)
deriving DecidableEq

/-- The per-subscription closure state of a query `onSnapshot` callback:
the hook that opened it and its `previousPaths` local. -/
structure QuerySubState where
  hookId : String
  previousPaths : Option (List String)
deriving DecidableEq

/-- A pending `setTimeout(unsubscribe, UNSUBSCRIBE_DELAY)`: fire time, the
departing hook and the document path its closure captured. -/
structure DocTimer where
  fireAt : Nat
  hookId : String
  path : String
deriving DecidableEq

structure SubscriptionService where
  ownerByDocPath : List (String × String)
  unsubscribeFunctionsByDocPath : List (String × Nat)
  docListenersByPath : List (String × List String)
  lastDocByPath : List (String × CachedDocument)
  assignDocOwnerFunctionsByPath : List (String × List String)
  ownerByQueryKey : List (String × String)
  unsubscribeFunctionsByQueryKey : List (String × Nat)
  queryListenersByKey : List (String × List String)
  lastQueryResultByKey : List (String × List CachedDocument)
  assignQueryOwnerFunctionsByKey : List (String × List String)
  /-- Closure state of each live query snapshot callback. -/
  querySubStateByKey : List (String × QuerySubState)
  now : Nat
  nextSub : Nat
  timers : List DocTimer
  trace : List (Nat × StoreCall)
deriving DecidableEq

def SubscriptionService.empty : SubscriptionService :=
  { ownerByDocPath := []
    unsubscribeFunctionsByDocPath := []
    docListenersByPath := []
    lastDocByPath := []
    assignDocOwnerFunctionsByPath := []
    ownerByQueryKey := []
    unsubscribeFunctionsByQueryKey := []
    queryListenersByKey := []
    lastQueryResultByKey := []
    assignQueryOwnerFunctionsByKey := []
    querySubStateByKey := []
    now := 0
    nextSub := 0
    timers := []
    trace := [] }

/-- The `subscribe` closure of `registerDocHook`: throws when the path is
already owned, otherwise opens the document `onSnapshot` subscription,
stores its unsubscribe handle and takes ownership. -/
def SubscriptionService.subscribeDoc (w : SubscriptionService) (hookId : String)
    (path : String) : Except String SubscriptionService :=
  match aget w.ownerByDocPath path with
  | some owner =>
    .error ("Path " ++ path ++ " is already owned by " ++ owner)
  | none =>
    let sub := w.nextSub
    .ok { w with
      trace := w.trace ++ [(w.now, .subscribeDoc path sub)]
      unsubscribeFunctionsByDocPath := aset w.unsubscribeFunctionsByDocPath path sub
      ownerByDocPath := aset w.ownerByDocPath path hookId
      nextSub := sub + 1 }

/-- The `takeOwnership` closure of `registerDocHook`: when an unsubscribe
function is on record for the path the hook just becomes the owner of the
existing subscription, otherwise it subscribes itself. -/
def SubscriptionService.takeOwnershipDoc (w : SubscriptionService)
    (hookId : String) (path : String) : Except String SubscriptionService :=
  if (aget w.unsubscribeFunctionsByDocPath path).isSome then
    .ok { w with ownerByDocPath := aset w.ownerByDocPath path hookId }
  else
    w.subscribeDoc hookId path

/-- `registerDocHook(hookId, ref, onDoc)`: ensures the listener and
owner-candidate arrays, appends the hook as a listener; with an existing
owner it reads the cached document, queues itself as a candidate next
owner and is fed the last document; otherwise it subscribes. Returns the
cached document (only set on the listen path). -/
def SubscriptionService.registerDocHook (w : SubscriptionService)
    (hookId : String) (path : String) :
    Except String (SubscriptionService × Option CachedDocument) :=
  let listeners := (aget w.docListenersByPath path).getD []
  let assignDocOwnerFunctions := (aget w.assignDocOwnerFunctionsByPath path).getD []
  let listeners := listeners ++ [hookId]
  let w := { w with
    docListenersByPath := aset w.docListenersByPath path listeners
    assignDocOwnerFunctionsByPath :=
      aset w.assignDocOwnerFunctionsByPath path assignDocOwnerFunctions }
  match aget w.ownerByDocPath path with
  | some _ =>
    let cachedDoc := aget w.lastDocByPath path
    let w := { w with
      assignDocOwnerFunctionsByPath :=
        aset w.assignDocOwnerFunctionsByPath path
          (assignDocOwnerFunctions ++ [hookId]) }
    let w := match aget w.lastDocByPath path with
      | some lastDoc => { w with trace := w.trace ++ [(w.now, .notifyDoc hookId lastDoc)] }
      | none => w
    .ok (w, cachedDoc)
  | none =>
    (w.subscribeDoc hookId path).map (fun w => (w, none))

/-- The `unsubscribe` closure of `registerDocHook`, run when the grace
timer fires: a no-op unless the departing hook is still the owner; then
the first waiting candidate (if any) is popped and given the subscription,
otherwise the stored unsubscribe function is called (and, unlike the query
variant, left on record). -/
def SubscriptionService.unsubscribeDoc (w : SubscriptionService)
    (hookId : String) (path : String) : Except String SubscriptionService :=
  if aget w.ownerByDocPath path ≠ some hookId then
    .ok w
  else
    let assignDocOwnerFunctions := (aget w.assignDocOwnerFunctionsByPath path).getD []
    let assignNextOwner := assignDocOwnerFunctions.head?
    let w := { w with
      assignDocOwnerFunctionsByPath :=
        aset w.assignDocOwnerFunctionsByPath path assignDocOwnerFunctions.tail
      ownerByDocPath := aerase w.ownerByDocPath path }
    match assignNextOwner with
    | some nextHook => w.takeOwnershipDoc nextHook path
    | none =>
      match aget w.unsubscribeFunctionsByDocPath path with
      | none =>
        .error ("No unsubscribe function found for path " ++ path ++
          " even though " ++ hookId ++ " is the owner?")
      | some sub =>
        .ok { w with trace := w.trace ++ [(w.now, .unsubscribeDoc sub)] }

/-- The `unregister` closure of `registerDocHook`: checks ownership first,
removes the hook's listener callback (throwing when already gone); an
owner schedules the delayed `unsubscribe`, a non-owner withdraws its
take-ownership candidacy (throwing when already gone). -/
def SubscriptionService.unregisterDocHook (w : SubscriptionService)
    (hookId : String) (path : String) : Except String SubscriptionService :=
  let weAreTheOwner := aget w.ownerByDocPath path = some hookId
  let listeners := (aget w.docListenersByPath path).getD []
  match listeners.findIdx? (fun h => h = hookId) with
  | none =>
    .error ("Document listener for hook " ++ hookId ++
      " was already gone before unlisten() was called")
  | some index =>
    let w := { w with
      docListenersByPath := aset w.docListenersByPath path (listeners.eraseIdx index) }
    if weAreTheOwner then
      .ok { w with
        timers := w.timers ++ [⟨w.now + UNSUBSCRIBE_DELAY, hookId, path⟩] }
    else
      let assignDocOwnerFunctions :=
        (aget w.assignDocOwnerFunctionsByPath path).getD []
      match assignDocOwnerFunctions.findIdx? (fun h => h = hookId) with
      | none =>
        .error ("zup Doc ownership function for hook " ++ hookId ++
          " was already gone before unlisten() was called")
      | some j =>
        .ok { w with
          assignDocOwnerFunctionsByPath :=
            aset w.assignDocOwnerFunctionsByPath path
              (assignDocOwnerFunctions.eraseIdx j) }

/-- The earliest pending grace timer firing: the clock advances to its
fire time and the captured `unsubscribe` closure runs. -/
def SubscriptionService.fireFirstTimer (w : SubscriptionService) :
    Except String SubscriptionService :=
  match w.timers with
  | [] => .ok w
  | t :: rest =>
    SubscriptionService.unsubscribeDoc { w with now := t.fireAt, timers := rest }
      t.hookId t.path

/-- The document `onSnapshot` callback set up by `subscribe` in
`registerDocHook`: throws on a snapshot of a missing document, else caches
`{id, ...data}` and feeds every current listener of the path. -/
def SubscriptionService.deliverDocSnapshot (w : SubscriptionService)
    (path : String) (exists_ : Bool) (id : String) (data : Nat) :
    Except String SubscriptionService :=
  if ¬ exists_ then
    .error ("Received a snapshot suggesting document " ++ path ++ " does not exist")
  else
    let newDoc : CachedDocument := { id, pathTag := none, data }
    let w := { w with lastDocByPath := aset w.lastDocByPath path newDoc }
    let listeners := (aget w.docListenersByPath path).getD []
    .ok { w with
      trace := w.trace ++ listeners.map (fun h => (w.now, .notifyDoc h newDoc)) }

/-- `registerQueryHook(hookId, query, onDocs)` restricted to its two
branches: with an existing owner the hook reads the cached results, queues
itself as a candidate owner and is fed the last results; otherwise it
opens the query `onSnapshot` subscription (with fresh `previousPaths`
closure state), stores the unsubscribe handle and becomes owner. -/
def SubscriptionService.registerQueryHook (w : SubscriptionService)
    (hookId : String) (queryKey : String) :
    SubscriptionService × Option (List CachedDocument) :=
  let queryListeners := (aget w.queryListenersByKey queryKey).getD []
  let assignQueryOwnerFunctions :=
    (aget w.assignQueryOwnerFunctionsByKey queryKey).getD []
  let queryListeners := queryListeners ++ [hookId]
  let w := { w with
    queryListenersByKey := aset w.queryListenersByKey queryKey queryListeners
    assignQueryOwnerFunctionsByKey :=
      aset w.assignQueryOwnerFunctionsByKey queryKey assignQueryOwnerFunctions }
  if (aget w.ownerByQueryKey queryKey).isSome then
    let cachedResults := aget w.lastQueryResultByKey queryKey
    let w := { w with
      assignQueryOwnerFunctionsByKey :=
        aset w.assignQueryOwnerFunctionsByKey queryKey
          (assignQueryOwnerFunctions ++ [hookId]) }
    let w := match aget w.lastQueryResultByKey queryKey with
      | some lastDocs =>
        { w with trace := w.trace ++ [(w.now, .notifyQuery hookId lastDocs)] }
      | none => w
    (w, cachedResults)
  else
    let sub := w.nextSub
    let w := { w with
      trace := w.trace ++ [(w.now, .subscribeQuery queryKey sub)]
      querySubStateByKey :=
        aset w.querySubStateByKey queryKey { hookId, previousPaths := none }
      unsubscribeFunctionsByQueryKey :=
        aset w.unsubscribeFunctionsByQueryKey queryKey sub
      ownerByQueryKey := aset w.ownerByQueryKey queryKey hookId
      nextSub := sub + 1 }
    (w, none)

/-- A raw document of a query snapshot: its path, id and fields payload. -/
structure QuerySnapDoc where
  path : String
  id : String
  data : Nat
deriving DecidableEq

/-- The per-document body of the query snapshot callback loop: cache
`{id, __path, ...data}` under the path and claim ownership of unowned
paths for the subscribing hook. -/
def applyQuerySnapDoc (hookId : String) (w : SubscriptionService)
    (d : QuerySnapDoc) : SubscriptionService :=
  let doc : CachedDocument := { id := d.id, pathTag := some d.path, data := d.data }
  let w := { w with lastDocByPath := aset w.lastDocByPath d.path doc }
  if (aget w.ownerByDocPath d.path).isNone then
    { w with ownerByDocPath := aset w.ownerByDocPath d.path hookId }
  else w

/-- One removed-path step of the query snapshot callback: when the
subscribing hook owns a path that left the result set, ownership is given
to the first waiting document-hook candidate — read without being
dequeued (`?.[0]`, not `shift()`). -/
def reassignRemovedPath (hookId : String) (w : SubscriptionService)
    (path : String) : Except String SubscriptionService :=
  if aget w.ownerByDocPath path ≠ some hookId then
    .ok w
  else
    match ((aget w.assignDocOwnerFunctionsByPath path).getD []).head? with
    | none => .ok w
    | some nextHook =>
      let w := { w with ownerByDocPath := aerase w.ownerByDocPath path }
      w.takeOwnershipDoc nextHook path

/-- The query `onSnapshot` callback: builds the docs (caching each and
claiming unowned doc paths), stores the query result, runs the
removed-paths pass only when `previousPaths` is set — it starts `undefined`
and is assigned only inside that branch, so it stays `undefined` — and
feeds every current query listener. -/
def SubscriptionService.deliverQuerySnapshot (w : SubscriptionService)
    (queryKey : String) (snapDocs : List QuerySnapDoc) :
    Except String SubscriptionService := do
  match aget w.querySubStateByKey queryKey with
  | none => .ok w
  | some qs =>
    let hookId := qs.hookId
    let newPaths := snapDocs.map (fun d => d.path)
    let docs := snapDocs.map
      (fun d => ({ id := d.id, pathTag := some d.path, data := d.data } : CachedDocument))
    let w := snapDocs.foldl (applyQuerySnapDoc hookId) w
    let w := { w with
      lastQueryResultByKey := aset w.lastQueryResultByKey queryKey docs }
    let w ← match qs.previousPaths with
      | none => pure w
      | some previousPaths =>
        let removedPaths := previousPaths.filter (fun p => ¬ p ∈ newPaths)
        let w ← removedPaths.foldlM (reassignRemovedPath hookId) w
        pure { w with
          querySubStateByKey :=
            aset w.querySubStateByKey queryKey { qs with previousPaths := some newPaths } }
    let queryListeners := (aget w.queryListenersByKey queryKey).getD []
    return { w with
      trace := w.trace ++ queryListeners.map (fun h => (w.now, .notifyQuery h docs)) }

/-- The store calls in a trace: `onSnapshot` subscriptions opened and
unsubscribe functions invoked, without the callback notifications. -/
def storeCalls (trace : List (Nat × StoreCall)) : List (Nat × StoreCall) :=
  trace.filter (fun e =>
    match e.2 with
    | .subscribeDoc _ _ => true
    | .unsubscribeDoc _ => true
    | .subscribeQuery _ _ => true
    | _ => false)

/-! ## deleteDocs (src/lib/deleteDocs.ts)

Write batches are embedded as lists of operations; `getDocs` queries go
through an environment describing what the store would return; `commit()`
is the point where a batch's operation list is emitted. `BatchOfBatches`
additionally carries a model-only `log` of every operation in the order it
was added, to state that commits happen in fill order. -/

inductive WriteOperation where
  | deleteOp (ref : String)
  | updateOp (ref : String) (field : String) (ids : List String)
deriving DecidableEq

inductive AssociationType where
  | removeFromIds
  | deleteAssociatedDocs
deriving DecidableEq

/-- The `Association` tree of src/lib/deleteDocs.ts. -/
inductive Association where
  | mk (type : AssociationType) (collection : String) (field : String)
      (associations : List Association)

def Association.type : Association → AssociationType
  | .mk t _ _ _ => t

def Association.collection : Association → String
  | .mk _ c _ _ => c

def Association.field : Association → String
  | .mk _ _ f _ => f

def Association.associations : Association → List Association
  | .mk _ _ _ a => a

/-- `andRemoveFromIds(collection, key)`. -/
def andRemoveFromIds (collection : String) (key : String) : Association :=
  .mk .removeFromIds collection key []

/-- `andDeleteAssociatedDocs(collection, key, ...associations)`. -/
def andDeleteAssociatedDocs (collection : String) (key : String)
    (associations : List Association) : Association :=
  .mk .deleteAssociatedDocs collection key associations

/-- A field value read from a document snapshot: an array of id strings or
something that is not an array. -/
inductive SnapshotFieldValue where
  | idList (ids : List String)
  | nonArray
deriving DecidableEq

/-- A document snapshot returned by one of the `getDocs` queries. -/
structure DeleteDocSnapshot where
  id : String
  ref : String
  fields : List (String × SnapshotFieldValue)
deriving DecidableEq

/-- The store as `deleteDocs` queries it: the snapshots matching
`where(field, "in", ids)` and `where(field, "array-contains-any", ids)`. -/
structure DeleteEnv where
  queryIn : String → String → List String → List DeleteDocSnapshot
  queryArrayContainsAny : String → String → List String → List DeleteDocSnapshot

/-- `BatchOfBatches`: the batch being filled, the full batches already
rolled over, and the operation count of the current batch; `log` records
every operation in the order it was added to a batch. -/
structure BatchOfBatches where
  currentBatch : List WriteOperation
  batches : List (List WriteOperation)
  operationCount : Nat
  log : List WriteOperation
deriving Inhabited

def BatchOfBatches.make : BatchOfBatches :=
  { currentBatch := [], batches := [], operationCount := 0, log := [] }

/-- `batches.currentBatch.delete(ref)` / `.update(ref, data)`: the write is
added to the batch being filled. -/
def BatchOfBatches.addOperation (b : BatchOfBatches) (op : WriteOperation) :
    BatchOfBatches :=
  { b with currentBatch := b.currentBatch ++ [op], log := b.log ++ [op] }

/-- `incrementOperation()`: counts the write; at 500 the current batch is
rolled into `batches` and a fresh one started. -/
def BatchOfBatches.incrementOperation (b : BatchOfBatches) : BatchOfBatches :=
  let operationCount := b.operationCount + 1
  if operationCount < 500 then
    { b with operationCount }
  else
    { b with
      batches := b.batches ++ [b.currentBatch]
      currentBatch := []
      operationCount := 0 }

/-- The batch bookkeeping invariant: the operation count matches the batch
being filled and stays below 500, every rolled-over batch holds exactly
500 operations, and the batches plus the current one replay the log. -/
def BatchOfBatches.wellFormed (b : BatchOfBatches) : Prop :=
  b.operationCount = b.currentBatch.length ∧
  b.operationCount < 500 ∧
  (∀ x ∈ b.batches, x.length = 500) ∧
  b.batches.flatten ++ b.currentBatch = b.log

/-- `addAssociationOperationsToBatches`: returns unchanged when there is
nothing to delete; otherwise walks the associations, recursing into
associated documents before deleting them, and scrubbing deleted ids out
of referencing array fields (throwing when the field is not an array). -/
def addAssociationOperationsToBatches (env : DeleteEnv) (b : BatchOfBatches)
    (associations : List Association) (idsToDelete : List String) :
    Except String BatchOfBatches :=
  if idsToDelete.length < 1 then .ok b
  else
    match associations with
    | [] => .ok b
    | association :: rest => do
      let b ← match association.type with
        | .deleteAssociatedDocs => do
          let associatedDocs :=
            env.queryIn association.collection association.field idsToDelete
          let associatedIds := associatedDocs.map (fun snapshot => snapshot.id)
          let b ← addAssociationOperationsToBatches env b
            association.associations associatedIds
          pure (associatedDocs.foldl
            (fun b associatedDoc =>
              (b.addOperation (.deleteOp associatedDoc.ref)).incrementOperation)
            b)
        | .removeFromIds => do
          let docsReferencingDeletedIds :=
            env.queryArrayContainsAny association.collection association.field
              idsToDelete
          docsReferencingDeletedIds.foldlM
            (fun b doc => do
              let idsToScrub ← (match aget doc.fields association.field with
                | some (SnapshotFieldValue.idList ids) => Except.ok ids
                | _ =>
                  Except.error ("Field " ++ association.field ++
                    " in andRemoveFromIds must be an array field.") :
                Except String (List String))
              let scrubbedIds := idsToScrub.filter (fun id => ¬ id ∈ idsToDelete)
              pure ((b.addOperation
                (.updateOp doc.ref association.field scrubbedIds)).incrementOperation))
            b
      addAssociationOperationsToBatches env b rest idsToDelete
termination_by sizeOf associations
decreasing_by
  all_goals cases association
  all_goals try simp only [Association.associations]
  all_goals simp_arith

/-- `deleteDocs(collection, idsToDelete, ...associations)`: association
operations first, then a delete per id; then every full batch is committed
in order, each awaited, and finally the partial batch when it holds any
operation. Returns the final batch state and the committed batches in
commit order. -/
def deleteDocs (env : DeleteEnv) (collection : String) (idsToDelete : List String)
    (associations : List Association) :
    Except String (BatchOfBatches × List (List WriteOperation)) := do
  let batches := BatchOfBatches.make
  let batches ← addAssociationOperationsToBatches env batches associations idsToDelete
  let batches := idsToDelete.foldl
    (fun b id => (b.addOperation (.deleteOp (collection ++ "/" ++ id))).incrementOperation)
    batches
  let commits := batches.batches ++
    (if batches.operationCount > 0 then [batches.currentBatch] else [])
  return (batches, commits)

/-! ## Concrete instances used by counterexamples and witnesses -/

/-- A query filtering `ownerUid == null` (wire value `{nullValue}`). -/
def queryOwnerUidNull : Firestore3Query :=
  { path := ["stories"]
    explicitOrderBy := []
    filters := [.single { field := ⟨["ownerUid"]⟩, op := "==", value := .nullValue }]
    limit := none
    limitType := .str "F"
    startAt := none
    endAt := none }

/-- A query filtering `ownerUid == "NULL_VALUE"` — the literal string, a
semantically different (and supported) scalar value. -/
def queryOwnerUidNullString : Firestore3Query :=
  { queryOwnerUidNull with
    filters := [.single
      { field := ⟨["ownerUid"]⟩, op := "==", value := .stringValue "NULL_VALUE" }] }

/-- The service state after a single hook `h1` registers for document
`repos/1` on a fresh service: `h1` owns a live document subscription. -/
def docWorldH1 : SubscriptionService :=
  match SubscriptionService.registerDocHook SubscriptionService.empty "h1" "repos/1" with
  | .ok r => r.1
  | .error _ => SubscriptionService.empty

/-- The service state after query hook `q1` subscribes to a query and its
subscription delivers a snapshot containing the document `repos/1`. -/
def queryWorldQ1 : SubscriptionService :=
  match SubscriptionService.deliverQuerySnapshot
      (SubscriptionService.registerQueryHook SubscriptionService.empty "q1"
        "path=repos").1
      "path=repos" [{ path := "repos/1", id := "1", data := 42 }] with
  | .ok w => w
  | .error _ => SubscriptionService.empty

/-- A store with no association query results. -/
def emptyDeleteEnv : DeleteEnv :=
  { queryIn := fun _ _ _ => []
    queryArrayContainsAny := fun _ _ _ => [] }

/-- The tail rendering of `Array.prototype.join`: what `join(sep)` appends
after its first element, one `sep ++ element` per remaining element. -/
def jsTail (sep : String) : List String → String
  | [] => ""
  | x :: xs => sep ++ x ++ jsTail sep xs

/-- The parameters `serializeQuery` emits before the `filters=` parameter:
the `path=` parameter and, when non-empty, the `orders=` parameter. -/
def serializeParamsPre (q : Firestore3Query) : List String :=
  ["path=" ++ jsJoin "/" q.path] ++
    (if (jsJoin ","
        (q.explicitOrderBy.map fun o => o.dir ++ "-" ++ jsJoin "/" o.field.segments)).length
        ≠ 0 then
      ["orders=" ++ jsJoin ","
        (q.explicitOrderBy.map fun o => o.dir ++ "-" ++ jsJoin "/" o.field.segments)]
    else [])

/-- The parameters `serializeQuery` emits after the `filters=` parameter:
the `limit=`/`limitType=`, `startAt=` and `endAt=` parameters when set. -/
def serializeParamsPost (q : Firestore3Query) : List String :=
  (match q.limit with
    | some n => ["limit=" ++ serialize (.num n), "limitType=" ++ serialize q.limitType]
    | none => []) ++
  (match q.startAt with
    | some v => ["startAt=" ++ serialize v]
    | none => []) ++
  (match q.endAt with
    | some v => ["endAt=" ++ serialize v]
    | none => [])

/-- A query whose single filter compares `a` to the string
`x" && y=="z`: serialize wraps it in quotes without escaping the embedded
ones. -/
def queryQuoteInjectionOne : Firestore3Query :=
  { path := ["stories"]
    explicitOrderBy := []
    filters := [.single
      { field := ⟨["a"]⟩, op := "==", value := .stringValue "x\" && y==\"z" }]
    limit := none
    limitType := .str "F"
    startAt := none
    endAt := none }

/-- A query with the two filters `a == "x"` and `y == "z"` — a different
filter set from `queryQuoteInjectionOne`, rendered identically because the
quote characters of the latter's payload are not escaped. -/
def queryQuoteInjectionTwo : Firestore3Query :=
  { queryQuoteInjectionOne with
    filters := [.single { field := ⟨["a"]⟩, op := "==", value := .stringValue "x" },
      .single { field := ⟨["y"]⟩, op := "==", value := .stringValue "z" }] }

/-! ## Helper lemmas -/

@[simp]
theorem aget_aset_self {α : Type} (m : List (String × α)) (k : String) (v : α) :
    aget (aset m k v) k = some v := by
  induction m with
  | nil => simp [aget, aset]
  | cons p rest ih =>
    by_cases h : p.1 = k
    · simp [aget, aset, h]
    · simp [aget, aset, h, ih]

theorem aget_aset_ne {α : Type} (m : List (String × α)) (k1 k : String) (v : α)
    (h : k1 ≠ k) : aget (aset m k1 v) k = aget m k := by
  induction m with
  | nil => simp [aget, aset, h]
  | cons p rest ih =>
    simp only [aset]
    by_cases h1 : p.1 = k1
    · rw [if_pos h1]
      simp [aget, h, h1]
    · rw [if_neg h1]
      by_cases h2 : p.1 = k
      · simp [aget, h2]
      · simp [aget, h2, ih]

theorem mem_addToJsSet (s : List String) (x y : String) :
    y ∈ addToJsSet s x ↔ y ∈ s ∨ y = x := by
  unfold addToJsSet
  by_cases h : x ∈ s
  · simp only [if_pos h]
    constructor
    · exact fun h1 => Or.inl h1
    · rintro (h1 | rfl)
      · exact h1
      · exact h
  · simp [if_neg h]

theorem mem_addAllToJsSet (s : List String) (xs : List String) (y : String) :
    y ∈ addAllToJsSet s xs ↔ y ∈ s ∨ y ∈ xs := by
  induction xs generalizing s with
  | nil => simp [addAllToJsSet]
  | cons x rest ih =>
    show y ∈ addAllToJsSet (addToJsSet s x) rest ↔ _
    rw [ih, mem_addToJsSet]
    simp only [List.mem_cons]
    tauto

theorem addToJsSet_nodup (s : List String) (x : String) (h : s.Nodup) :
    (addToJsSet s x).Nodup := by
  unfold addToJsSet
  by_cases hx : x ∈ s
  · simpa [if_pos hx]
  · simpa [if_neg hx] using List.Nodup.append h (by simp) (by simpa using hx)

theorem addAllToJsSet_nodup (s : List String) (xs : List String) (h : s.Nodup) :
    (addAllToJsSet s xs).Nodup := by
  induction xs generalizing s with
  | nil => simpa [addAllToJsSet]
  | cons x rest ih =>
    exact ih (addToJsSet s x) (addToJsSet_nodup s x h)

theorem addAllToJsSet_eq_append (s : List String) (xs : List String)
    (h1 : xs.Nodup) (h2 : ∀ x ∈ xs, ¬ x ∈ s) : addAllToJsSet s xs = s ++ xs := by
  induction xs generalizing s with
  | nil => simp [addAllToJsSet]
  | cons x rest ih =>
    have hx : ¬ x ∈ s := h2 x (by simp)
    have step : addToJsSet s x = s ++ [x] := by simp [addToJsSet, hx]
    have hrest : ∀ y ∈ rest, ¬ y ∈ s ++ [x] := by
      intro y hy
      simp only [List.mem_append, List.mem_singleton]
      rintro (hys | rfl)
      · exact h2 y (by simp [hy]) hys
      · exact (List.nodup_cons.mp h1).1 hy
    show addAllToJsSet (addToJsSet s x) rest = _
    rw [step, ih (s ++ [x]) (List.Nodup.of_cons h1) hrest]
    simp

theorem chunkGo_flatten {α : Type} (fuel : Nat) :
    ∀ (l : List α) (n : Nat), l.length ≤ fuel → (chunkGo fuel l n).flatten = l := by
  induction fuel with
  | zero =>
    intro l n hl
    have : l = [] := List.eq_nil_of_length_eq_zero (Nat.le_zero.mp hl)
    subst this
    rfl
  | succ fuel ih =>
    intro l n hl
    cases l with
    | nil => rfl
    | cons x xs =>
      show (chunkGo (fuel + 1) (x :: xs) n).flatten = x :: xs
      rw [chunkGo]
      by_cases hn : n = 0
      · simp [hn]
      · rw [if_neg hn]
        have hdrop : ((x :: xs).drop n).length ≤ fuel := by
          simp only [List.length_drop, List.length_cons]
          have := Nat.pos_of_ne_zero hn
          simp only [List.length_cons] at hl
          omega
        simp only [List.flatten_cons, ih _ n hdrop, List.take_append_drop]

theorem chunk_flatten {α : Type} (l : List α) (n : Nat) : (chunk l n).flatten = l :=
  chunkGo_flatten l.length l n (Nat.le_refl _)

theorem chunkGo_length_le {α : Type} (fuel : Nat) :
    ∀ (l : List α) (n : Nat), 0 < n → ∀ c ∈ chunkGo fuel l n, c.length ≤ n := by
  induction fuel with
  | zero => intro l n _ c hc; cases hc
  | succ fuel ih =>
    intro l n hn c hc
    cases l with
    | nil => cases hc
    | cons x xs =>
      rw [chunkGo, if_neg (Nat.pos_iff_ne_zero.mp hn)] at hc
      rcases List.mem_cons.mp hc with h1 | h1
      · subst h1; simp
      · exact ih _ n hn c h1

theorem chunk_length_le {α : Type} (l : List α) (n : Nat) (hn : 0 < n) :
    ∀ c ∈ chunk l n, c.length ≤ n :=
  chunkGo_length_le l.length l n hn

theorem chunkGo_ne_nil {α : Type} (fuel : Nat) :
    ∀ (l : List α) (n : Nat), ∀ c ∈ chunkGo fuel l n, c ≠ [] := by
  induction fuel with
  | zero => intro l n c hc; cases hc
  | succ fuel ih =>
    intro l n c hc
    cases l with
    | nil => cases hc
    | cons x xs =>
      rw [chunkGo] at hc
      by_cases hn : n = 0
      · rw [if_pos hn] at hc
        rcases List.mem_cons.mp hc with h1 | h1
        · subst h1; simp
        · cases h1
      · rw [if_neg hn] at hc
        rcases List.mem_cons.mp hc with h1 | h1
        · subst h1
          simp [List.take_eq_nil_iff, hn]
        · exact ih _ n c h1

theorem chunk_ne_nil {α : Type} (l : List α) (n : Nat) :
    ∀ c ∈ chunk l n, c ≠ [] :=
  chunkGo_ne_nil l.length l n

theorem set_concat_last {α : Type} (l : List α) (a c : α) :
    (l ++ [a]).set l.length c = l ++ [c] := by
  induction l with
  | nil => simp
  | cons x xs ih => simp [List.set, ih]

/-! ## ChunkedSnapshotListener lemmas -/

theorem subscribeNewChunks_spec (s : ChunkedSnapshotListener) (ids : List String) :
    ((s.subscribeNewChunks ids).1.chunks = s.chunks ++ chunk ids 30) ∧
    ((s.subscribeNewChunks ids).1.ids = s.ids) ∧
    ((s.subscribeNewChunks ids).1.status = s.status) ∧
    ((s.subscribeNewChunks ids).1.collectionPath = s.collectionPath) ∧
    ((s.subscribeNewChunks ids).2.filterMap (fun e => match e with
      | .opened _ c => some c
      | .closed _ => none) = chunk ids 30) := by
  have key : ∀ (cs : List (List String)) (p : ChunkedSnapshotListener × List ListenerEvent),
      ((cs.foldl
        (fun (acc : ChunkedSnapshotListener × List ListenerEvent) c =>
          let s := acc.1
          let sub := s.localNext
          ({ s with
              chunks := s.chunks ++ [c]
              unsubscribes := s.unsubscribes ++ [sub]
              chunkIsLoaded := s.chunkIsLoaded ++ [false]
              localNext := sub + 1 },
            acc.2 ++ [.opened sub c])) p).1.chunks = p.1.chunks ++ cs) ∧
      ((cs.foldl
        (fun (acc : ChunkedSnapshotListener × List ListenerEvent) c =>
          let s := acc.1
          let sub := s.localNext
          ({ s with
              chunks := s.chunks ++ [c]
              unsubscribes := s.unsubscribes ++ [sub]
              chunkIsLoaded := s.chunkIsLoaded ++ [false]
              localNext := sub + 1 },
            acc.2 ++ [.opened sub c])) p).1.ids = p.1.ids) ∧
      ((cs.foldl
        (fun (acc : ChunkedSnapshotListener × List ListenerEvent) c =>
          let s := acc.1
          let sub := s.localNext
          ({ s with
              chunks := s.chunks ++ [c]
              unsubscribes := s.unsubscribes ++ [sub]
              chunkIsLoaded := s.chunkIsLoaded ++ [false]
              localNext := sub + 1 },
            acc.2 ++ [.opened sub c])) p).1.status = p.1.status) ∧
      ((cs.foldl
        (fun (acc : ChunkedSnapshotListener × List ListenerEvent) c =>
          let s := acc.1
          let sub := s.localNext
          ({ s with
              chunks := s.chunks ++ [c]
              unsubscribes := s.unsubscribes ++ [sub]
              chunkIsLoaded := s.chunkIsLoaded ++ [false]
              localNext := sub + 1 },
            acc.2 ++ [.opened sub c])) p).1.collectionPath = p.1.collectionPath) ∧
      ((cs.foldl
        (fun (acc : ChunkedSnapshotListener × List ListenerEvent) c =>
          let s := acc.1
          let sub := s.localNext
          ({ s with
              chunks := s.chunks ++ [c]
              unsubscribes := s.unsubscribes ++ [sub]
              chunkIsLoaded := s.chunkIsLoaded ++ [false]
              localNext := sub + 1 },
            acc.2 ++ [.opened sub c])) p).2.filterMap (fun e => match e with
        | .opened _ c => some c
        | .closed _ => none) = p.2.filterMap (fun e => match e with
        | .opened _ c => some c
        | .closed _ => none) ++ cs) := by
    intro cs
    induction cs with
    | nil => intro p; simp
    | cons c rest ih =>
      intro p
      simp only [List.foldl_cons]
      refine ⟨?_, ?_, ?_, ?_, ?_⟩
      · rw [(ih _).1]; simp
      · rw [(ih _).2.1]
      · rw [(ih _).2.2.1]
      · rw [(ih _).2.2.2.1]
      · rw [(ih _).2.2.2.2]; simp
  have h := key (chunk ids 30) (⟨s, []⟩ : ChunkedSnapshotListener × List ListenerEvent)
  simpa [ChunkedSnapshotListener.subscribeNewChunks] using h

theorem applyAddIds_waiting (s : ChunkedSnapshotListener) (l : List String)
    (h : s.status = .waiting) :
    s.applyAddIds l =
      { s with ids := addAllToJsSet s.ids (l.filter (fun i => ¬ i ∈ s.ids)) } := by
  unfold ChunkedSnapshotListener.applyAddIds ChunkedSnapshotListener.addIds
  rw [h]
  simp

theorem applyAddIdsAll_waiting (s : ChunkedSnapshotListener)
    (pre : List (List String)) (h : s.status = .waiting) :
    (s.applyAddIdsAll pre).status = .waiting ∧
    (s.applyAddIdsAll pre).chunks = s.chunks ∧
    (s.applyAddIdsAll pre).collectionPath = s.collectionPath ∧
    ((s.applyAddIdsAll pre).ids.Nodup ∨ ¬ s.ids.Nodup) := by
  induction pre generalizing s with
  | nil =>
    refine ⟨h, rfl, rfl, ?_⟩
    by_cases hn : s.ids.Nodup
    · exact Or.inl hn
    · exact Or.inr hn
  | cons l rest ih =>
    have hs : s.applyAddIdsAll (l :: rest) = (s.applyAddIds l).applyAddIdsAll rest := rfl
    rw [hs, applyAddIds_waiting s l h]
    have ih1 := ih { s with ids := addAllToJsSet s.ids (l.filter (fun i => ¬ i ∈ s.ids)) } h
    refine ⟨ih1.1, ih1.2.1, ih1.2.2.1, ?_⟩
    rcases ih1.2.2.2 with h1 | h1
    · exact Or.inl h1
    · by_cases hn : s.ids.Nodup
      · exact absurd (addAllToJsSet_nodup _ _ hn) h1
      · exact Or.inr hn

theorem addIds_started_case_nochunks (s : ChunkedSnapshotListener) (l : List String)
    (hs : s.status = .started)
    (hchunks : s.chunks = [])
    (hlen : ¬ (l.filter (fun i => ¬ i ∈ s.ids)).length < 1) :
    s.applyAddIds l =
      (ChunkedSnapshotListener.subscribeNewChunks
        { s with ids := addAllToJsSet s.ids (l.filter (fun i => ¬ i ∈ s.ids)) }
        (l.filter (fun i => ¬ i ∈ s.ids))).1 := by
  unfold ChunkedSnapshotListener.applyAddIds ChunkedSnapshotListener.addIds
  simp only [hs, hchunks, hlen]
  simp

theorem addIds_started_case_nonew (s : ChunkedSnapshotListener) (l : List String)
    (hs : s.status = .started)
    (hlen : (l.filter (fun i => ¬ i ∈ s.ids)).length < 1) :
    s.applyAddIds l =
      { s with ids := addAllToJsSet s.ids (l.filter (fun i => ¬ i ∈ s.ids)) } := by
  unfold ChunkedSnapshotListener.applyAddIds ChunkedSnapshotListener.addIds
  simp only [hs, hlen]
  simp

theorem addIds_started_case_last (s : ChunkedSnapshotListener) (l : List String)
    (dl : List (List String)) (lc : List String)
    (hs : s.status = .started)
    (hchunks : s.chunks = dl ++ [lc])
    (hlen : ¬ (l.filter (fun i => ¬ i ∈ s.ids)).length < 1) :
    s.applyAddIds l =
      (let s1 : ChunkedSnapshotListener :=
        { s with ids := addAllToJsSet s.ids (l.filter (fun i => ¬ i ∈ s.ids)) }
      let tk := (l.filter (fun i => ¬ i ∈ s.ids)).take (30 - lc.length)
      let dr := (l.filter (fun i => ¬ i ∈ s.ids)).drop (30 - lc.length)
      let r1 := if tk.length > 0 then
          s1.resubscribe ((dl ++ [lc]).length - 1) (lc ++ tk)
        else (s1, [])
      let r2 := if dr.length > 0 then r1.1.subscribeNewChunks dr else (r1.1, [])
      r2.1) := by
  unfold ChunkedSnapshotListener.applyAddIds ChunkedSnapshotListener.addIds
  simp only [hs, hchunks, hlen]
  rw [List.getLast?_concat]
  simp

theorem resubscribe_spec (s : ChunkedSnapshotListener) (i : Nat) (c : List String) :
    ((s.resubscribe i c).1.chunks = s.chunks.set i c) ∧
    ((s.resubscribe i c).1.ids = s.ids) ∧
    ((s.resubscribe i c).1.status = s.status) ∧
    ((s.resubscribe i c).1.collectionPath = s.collectionPath) := by
  unfold ChunkedSnapshotListener.resubscribe
  exact ⟨rfl, rfl, rfl, rfl⟩

theorem applyAddIds_started_partition (s : ChunkedSnapshotListener) (l : List String)
    (hs : s.status = .started)
    (hflat : s.chunks.flatten = s.ids)
    (hnd : s.ids.Nodup)
    (hc : ∀ c ∈ s.chunks, c.length ≤ 30 ∧ c ≠ [])
    (hl : l.Nodup) :
    (s.applyAddIds l).status = .started ∧
    (s.applyAddIds l).chunks.flatten = (s.applyAddIds l).ids ∧
    (s.applyAddIds l).ids.Nodup ∧
    (∀ c ∈ (s.applyAddIds l).chunks, c.length ≤ 30 ∧ c ≠ []) := by
  have hnewnd : (l.filter (fun i => ¬ i ∈ s.ids)).Nodup := hl.filter _
  have hnewdisj : ∀ x ∈ l.filter (fun i => ¬ i ∈ s.ids), ¬ x ∈ s.ids := by
    intro x hx
    simpa using List.of_mem_filter hx
  have hids1 : addAllToJsSet s.ids (l.filter (fun i => ¬ i ∈ s.ids)) =
      s.ids ++ l.filter (fun i => ¬ i ∈ s.ids) :=
    addAllToJsSet_eq_append _ _ hnewnd hnewdisj
  have hnd1 : (s.ids ++ l.filter (fun i => ¬ i ∈ s.ids)).Nodup := by
    refine List.Nodup.append hnd hnewnd ?_
    intro a ha hb
    exact hnewdisj a hb ha
  by_cases hlen : (l.filter (fun i => ¬ i ∈ s.ids)).length < 1
  · have hnil : l.filter (fun i => ¬ i ∈ s.ids) = [] := by
      cases hfil : l.filter (fun i => ¬ i ∈ s.ids) with
      | nil => rfl
      | cons a b => rw [hfil] at hlen; simp at hlen
    rw [addIds_started_case_nonew s l hs hlen, hnil]
    exact ⟨hs, hflat, hnd, hc⟩
  · rcases s.chunks.eq_nil_or_concat' with hnil2 | ⟨dl, lc, hcat⟩
    · rw [addIds_started_case_nochunks s l hs hnil2 hlen]
      have hids_nil : s.ids = [] := by rw [← hflat, hnil2]; rfl
      have hspec := subscribeNewChunks_spec
        { s with ids := addAllToJsSet s.ids (l.filter (fun i => ¬ i ∈ s.ids)) }
        (l.filter (fun i => ¬ i ∈ s.ids))
      refine ⟨?_, ?_, ?_, ?_⟩
      · rw [hspec.2.2.1]; exact hs
      · rw [hspec.1, hspec.2.1]
        show (s.chunks ++ chunk (l.filter (fun i => ¬ i ∈ s.ids)) 30).flatten =
          addAllToJsSet s.ids (l.filter (fun i => ¬ i ∈ s.ids))
        rw [hnil2, hids1, hids_nil, List.nil_append, List.nil_append]
        exact chunk_flatten _ 30
      · rw [hspec.2.1]
        show (addAllToJsSet s.ids (l.filter (fun i => ¬ i ∈ s.ids))).Nodup
        rw [hids1]
        exact hnd1
      · rw [hspec.1]
        intro c hmem
        have hmem2 : c ∈ s.chunks ++ chunk (l.filter (fun i => ¬ i ∈ s.ids)) 30 := hmem
        rw [hnil2, List.nil_append] at hmem2
        exact ⟨chunk_length_le _ 30 (by omega) c hmem2, chunk_ne_nil _ 30 c hmem2⟩
    · rw [addIds_started_case_last s l dl lc hs hcat hlen]
      simp only []
      have htkdr : (l.filter (fun i => ¬ i ∈ s.ids)).take (30 - lc.length) ++
          (l.filter (fun i => ¬ i ∈ s.ids)).drop (30 - lc.length) =
          l.filter (fun i => ¬ i ∈ s.ids) := List.take_append_drop _ _
      have hlc := hc lc (by rw [hcat]; simp)
      -- the state after the conditional resubscribe of the last chunk
      have hr1 : ∀ r1 : ChunkedSnapshotListener × List ListenerEvent,
          r1 = (if ((l.filter (fun i => ¬ i ∈ s.ids)).take (30 - lc.length)).length > 0 then
            ChunkedSnapshotListener.resubscribe
              { s with ids := addAllToJsSet s.ids (l.filter (fun i => ¬ i ∈ s.ids)) }
              ((dl ++ [lc]).length - 1)
              (lc ++ (l.filter (fun i => ¬ i ∈ s.ids)).take (30 - lc.length))
          else ({ s with ids := addAllToJsSet s.ids (l.filter (fun i => ¬ i ∈ s.ids)) }, [])) →
          r1.1.chunks = dl ++ [lc ++ (l.filter (fun i => ¬ i ∈ s.ids)).take (30 - lc.length)] ∧
          r1.1.ids = addAllToJsSet s.ids (l.filter (fun i => ¬ i ∈ s.ids)) ∧
          r1.1.status = s.status := by
        intro r1 hr1def
        by_cases htk : ((l.filter (fun i => ¬ i ∈ s.ids)).take (30 - lc.length)).length > 0
        · rw [if_pos htk] at hr1def
          subst hr1def
          have hres := resubscribe_spec
            { s with ids := addAllToJsSet s.ids (l.filter (fun i => ¬ i ∈ s.ids)) }
            ((dl ++ [lc]).length - 1)
            (lc ++ (l.filter (fun i => ¬ i ∈ s.ids)).take (30 - lc.length))
          refine ⟨?_, hres.2.1, hres.2.2.1⟩
          rw [hres.1]
          show (s.chunks.set _ _) = _
          rw [hcat]
          have hidx : (dl ++ [lc]).length - 1 = dl.length := by simp
          rw [hidx, set_concat_last]
        · rw [if_neg htk] at hr1def
          subst hr1def
          have htk0 : (l.filter (fun i => ¬ i ∈ s.ids)).take (30 - lc.length) = [] := by
            cases hfil : (l.filter (fun i => ¬ i ∈ s.ids)).take (30 - lc.length) with
            | nil => rfl
            | cons a b => rw [hfil] at htk; simp at htk
          rw [htk0]
          refine ⟨?_, rfl, rfl⟩
          show s.chunks = _
          rw [hcat, List.append_nil]
      have hr1spec := hr1 _ rfl
      -- the state after the conditional subscribe of overflow chunks
      have hr2 : ∀ s1 : ChunkedSnapshotListener,
          s1.chunks = dl ++ [lc ++ (l.filter (fun i => ¬ i ∈ s.ids)).take (30 - lc.length)] →
          ∀ r2 : ChunkedSnapshotListener × List ListenerEvent,
          r2 = (if ((l.filter (fun i => ¬ i ∈ s.ids)).drop (30 - lc.length)).length > 0 then
            s1.subscribeNewChunks ((l.filter (fun i => ¬ i ∈ s.ids)).drop (30 - lc.length))
          else (s1, [])) →
          r2.1.chunks = s1.chunks ++
            chunk ((l.filter (fun i => ¬ i ∈ s.ids)).drop (30 - lc.length)) 30 ∧
          r2.1.ids = s1.ids ∧
          r2.1.status = s1.status := by
        intro s1 hs1 r2 hr2def
        by_cases hdr : ((l.filter (fun i => ¬ i ∈ s.ids)).drop (30 - lc.length)).length > 0
        · rw [if_pos hdr] at hr2def
          subst hr2def
          have hsnc := subscribeNewChunks_spec s1
            ((l.filter (fun i => ¬ i ∈ s.ids)).drop (30 - lc.length))
          exact ⟨hsnc.1, hsnc.2.1, hsnc.2.2.1⟩
        · rw [if_neg hdr] at hr2def
          subst hr2def
          have hdr0 : (l.filter (fun i => ¬ i ∈ s.ids)).drop (30 - lc.length) = [] := by
            cases hfil : (l.filter (fun i => ¬ i ∈ s.ids)).drop (30 - lc.length) with
            | nil => rfl
            | cons a b => rw [hfil] at hdr; simp at hdr
          rw [hdr0]
          exact ⟨by simp [chunk, chunkGo], rfl, rfl⟩
      have hr2spec := hr2 _ hr1spec.1 _ rfl
      refine ⟨?_, ?_, ?_, ?_⟩
      · rw [hr2spec.2.2, hr1spec.2.2]; exact hs
      · rw [hr2spec.1, hr1spec.1, hr2spec.2.1, hr1spec.2.1, hids1]
        simp only [List.flatten_append, List.flatten_cons, List.flatten_nil,
          List.append_nil, chunk_flatten]
        have hbase : dl.flatten ++ lc = s.ids := by
          rw [← hflat, hcat]
          simp
        have h2 : dl.flatten ++ (lc ++
            ((l.filter (fun i => ¬ i ∈ s.ids)).take (30 - lc.length) ++
             (l.filter (fun i => ¬ i ∈ s.ids)).drop (30 - lc.length))) =
            s.ids ++ l.filter (fun i => ¬ i ∈ s.ids) := by
          rw [htkdr, ← List.append_assoc, hbase]
        rw [← h2]
        simp [List.append_assoc]
      · rw [hr2spec.2.1, hr1spec.2.1, hids1]; exact hnd1
      · rw [hr2spec.1, hr1spec.1]
        intro c hmem
        rcases List.mem_append.mp hmem with hmem1 | hmem1
        · rcases List.mem_append.mp hmem1 with hmem2 | hmem2
          · exact hc c (by rw [hcat]; exact List.mem_append.mpr (Or.inl hmem2))
          · have hceq : c = lc ++ (l.filter (fun i => ¬ i ∈ s.ids)).take (30 - lc.length) := by
              simpa using hmem2
            subst hceq
            constructor
            · have h1 : ((l.filter (fun i => ¬ i ∈ s.ids)).take (30 - lc.length)).length ≤
                  30 - lc.length := by
                simp
              have h2 : lc.length ≤ 30 := hlc.1
              simp only [List.length_append]
              omega
            · intro hcon
              exact hlc.2 (List.append_eq_nil.mp hcon).1
        · exact ⟨chunk_length_le _ 30 (by omega) c hmem1, chunk_ne_nil _ 30 c hmem1⟩

theorem applyAddIdsAll_started_partition (post : List (List String)) :
    ∀ s : ChunkedSnapshotListener, s.status = .started →
    s.chunks.flatten = s.ids → s.ids.Nodup →
    (∀ c ∈ s.chunks, c.length ≤ 30 ∧ c ≠ []) →
    (∀ l ∈ post, l.Nodup) →
    (s.applyAddIdsAll post).status = .started ∧
    (s.applyAddIdsAll post).chunks.flatten = (s.applyAddIdsAll post).ids ∧
    (s.applyAddIdsAll post).ids.Nodup ∧
    (∀ c ∈ (s.applyAddIdsAll post).chunks, c.length ≤ 30 ∧ c ≠ []) := by
  induction post with
  | nil => intro s h1 h2 h3 h4 _; exact ⟨h1, h2, h3, h4⟩
  | cons l rest ih =>
    intro s h1 h2 h3 h4 h5
    have hstep := applyAddIds_started_partition s l h1 h2 h3 h4 (h5 l (by simp))
    have hsplit : s.applyAddIdsAll (l :: rest) = (s.applyAddIds l).applyAddIdsAll rest := rfl
    rw [hsplit]
    exact ih _ hstep.1 hstep.2.1 hstep.2.2.1 hstep.2.2.2
      (fun x hx => h5 x (by simp [hx]))

/-- C5: for a `ChunkedSnapshotListener` that has been started, after any
sequence of `addIds` calls before the start and any sequence of
(duplicate-free) `addIds` calls after it, the chunks partition the
accumulated id set exactly — the concatenation of the chunks is the id set
itself, which is duplicate-free, so every requested id lies in exactly one
chunk with no duplicates and no omissions — and every chunk holds at most
30 ids. -/
theorem c5_started_chunks_partition_ids (collectionPath : String)
    (initialIds : List String) (pre post : List (List String))
    (hpost : ∀ l ∈ post, l.Nodup) :
    (((((ChunkedSnapshotListener.make collectionPath initialIds).applyAddIdsAll
        pre).start.1).applyAddIdsAll post).chunks.flatten =
      ((((ChunkedSnapshotListener.make collectionPath initialIds).applyAddIdsAll
        pre).start.1).applyAddIdsAll post).ids) ∧
    ((((ChunkedSnapshotListener.make collectionPath initialIds).applyAddIdsAll
        pre).start.1).applyAddIdsAll post).ids.Nodup ∧
    (∀ c ∈ ((((ChunkedSnapshotListener.make collectionPath initialIds).applyAddIdsAll
        pre).start.1).applyAddIdsAll post).chunks, c.length ≤ 30) := by
  have hmk_nd : (ChunkedSnapshotListener.make collectionPath initialIds).ids.Nodup :=
    addAllToJsSet_nodup [] initialIds List.nodup_nil
  have hw := applyAddIdsAll_waiting (ChunkedSnapshotListener.make collectionPath initialIds)
    pre rfl
  have hw_nd : ((ChunkedSnapshotListener.make collectionPath initialIds).applyAddIdsAll
      pre).ids.Nodup := by
    rcases hw.2.2.2 with h | h
    · exact h
    · exact absurd hmk_nd h
  have hw_chunks : ((ChunkedSnapshotListener.make collectionPath initialIds).applyAddIdsAll
      pre).chunks = [] := hw.2.1
  have hsnc := subscribeNewChunks_spec
    { ((ChunkedSnapshotListener.make collectionPath initialIds).applyAddIdsAll pre) with
        status := ListenerStatus.started }
    ((ChunkedSnapshotListener.make collectionPath initialIds).applyAddIdsAll pre).ids
  have hstart_status :
      (((ChunkedSnapshotListener.make collectionPath initialIds).applyAddIdsAll
        pre).start.1).status = .started := by
    unfold ChunkedSnapshotListener.start
    rw [hsnc.2.2.1]
  have hstart_chunks :
      (((ChunkedSnapshotListener.make collectionPath initialIds).applyAddIdsAll
        pre).start.1).chunks =
      chunk ((ChunkedSnapshotListener.make collectionPath initialIds).applyAddIdsAll
        pre).ids 30 := by
    unfold ChunkedSnapshotListener.start
    rw [hsnc.1]
    show (((ChunkedSnapshotListener.make collectionPath initialIds).applyAddIdsAll
      pre).chunks ++ _) = _
    rw [hw_chunks, List.nil_append]
  have hstart_ids :
      (((ChunkedSnapshotListener.make collectionPath initialIds).applyAddIdsAll
        pre).start.1).ids =
      ((ChunkedSnapshotListener.make collectionPath initialIds).applyAddIdsAll pre).ids := by
    unfold ChunkedSnapshotListener.start
    rw [hsnc.2.1]
  have hmain := applyAddIdsAll_started_partition post
    (((ChunkedSnapshotListener.make collectionPath initialIds).applyAddIdsAll pre).start.1)
    hstart_status
    (by rw [hstart_chunks, hstart_ids]; exact chunk_flatten _ 30)
    (by rw [hstart_ids]; exact hw_nd)
    (by
      rw [hstart_chunks]
      intro c hmem
      exact ⟨chunk_length_le _ 30 (by omega) c hmem, chunk_ne_nil _ 30 c hmem⟩)
    hpost
  exact ⟨hmain.2.1, hmain.2.2.1, fun c hmem => (hmain.2.2.2 c hmem).1⟩

/-- Witness for C5 at concrete inputs: initial ids, a pre-start call with
an overlapping id, then a post-start call adding new ids. -/
theorem c5_started_chunks_partition_ids_witness :
    (∀ l ∈ [["b", "c"]], List.Nodup l) ∧
    (((((ChunkedSnapshotListener.make "tags" ["a", "b"]).applyAddIdsAll
      [["a", "c"]]).start.1).applyAddIdsAll [["b", "c"]]).chunks.flatten =
     ((((ChunkedSnapshotListener.make "tags" ["a", "b"]).applyAddIdsAll
      [["a", "c"]]).start.1).applyAddIdsAll [["b", "c"]]).ids) ∧
    ((((ChunkedSnapshotListener.make "tags" ["a", "b"]).applyAddIdsAll
      [["a", "c"]]).start.1).applyAddIdsAll [["b", "c"]]).ids.Nodup ∧
    (∀ c ∈ ((((ChunkedSnapshotListener.make "tags" ["a", "b"]).applyAddIdsAll
      [["a", "c"]]).start.1).applyAddIdsAll [["b", "c"]]).chunks,
      c.length ≤ 30) :=
  ⟨by decide, c5_started_chunks_partition_ids "tags" ["a", "b"] [["a", "c"]]
    [["b", "c"]] (by decide)⟩

/-- C8: after `shutDown()` — which closes every chunk subscription and
moves the status to `stopped` — every subsequent `addIds` call fails with
the explicit "was shut down" error, and under the exception semantics the
failed call leaves the listener state unchanged. -/
theorem c8_addIds_after_shutDown_errors (s : ChunkedSnapshotListener)
    (newIds : List String) :
    (s.shutDown.1.status = .stopped) ∧
    (s.shutDown.2 = s.unsubscribes.map ListenerEvent.closed) ∧
    (ChunkedSnapshotListener.addIds s.shutDown.1 newIds =
      Except.error ("Tried to use snapshot listener for " ++ s.collectionPath ++
        " but it was shut down")) ∧
    ((s.shutDown.1).applyAddIds newIds = s.shutDown.1) := by
  have herr : ChunkedSnapshotListener.addIds s.shutDown.1 newIds =
      Except.error ("Tried to use snapshot listener for " ++ s.collectionPath ++
        " but it was shut down") := by
    unfold ChunkedSnapshotListener.addIds ChunkedSnapshotListener.shutDown
    simp
  refine ⟨rfl, rfl, herr, ?_⟩
  unfold ChunkedSnapshotListener.applyAddIds
  rw [herr]

/-! ## CollectionService: burst registration (C4) -/

theorem addIds_waiting_eq (s : ChunkedSnapshotListener) (l : List String)
    (h : s.status = .waiting) :
    ChunkedSnapshotListener.addIds s l =
      Except.ok ({ s with ids := addAllToJsSet s.ids (l.filter (fun i => ¬ i ∈ s.ids)) },
        l.filter (fun i => ¬ i ∈ s.ids), []) := by
  unfold ChunkedSnapshotListener.addIds
  simp [h]

theorem addAllToJsSet_filter_covered (l : List String) :
    ∀ (s acc : List String), (∀ i, i ∈ s → i ∈ acc) →
    addAllToJsSet acc (l.filter (fun i => ¬ i ∈ s)) = addAllToJsSet acc l := by
  induction l with
  | nil => intro s acc _; rfl
  | cons x rest ih =>
    intro s acc hcov
    by_cases hx : x ∈ s
    · have hdrop : (x :: rest).filter (fun i => ¬ i ∈ s) =
          rest.filter (fun i => ¬ i ∈ s) := by
        simp [List.filter_cons, hx]
      rw [hdrop]
      have hacc : addToJsSet acc x = acc := by
        simp [addToJsSet, hcov x hx]
      show _ = addAllToJsSet (addToJsSet acc x) rest
      rw [hacc]
      exact ih s acc hcov
    · have hkeep : (x :: rest).filter (fun i => ¬ i ∈ s) =
          x :: rest.filter (fun i => ¬ i ∈ s) := by
        simp [List.filter_cons, hx]
      rw [hkeep]
      show addAllToJsSet (addToJsSet acc x) _ = addAllToJsSet (addToJsSet acc x) rest
      exact ih s (addToJsSet acc x)
        (fun i hi => (mem_addToJsSet acc x i).mpr (Or.inl (hcov i hi)))

theorem addAllToJsSet_filter_self (acc l : List String) :
    addAllToJsSet acc (l.filter (fun i => ¬ i ∈ acc)) = addAllToJsSet acc l :=
  addAllToJsSet_filter_covered l acc acc (fun _ h => h)

theorem mem_foldl_addAllToJsSet (regs : List (String × List String)) :
    ∀ (acc : List String) (x : String),
    (x ∈ regs.foldl (fun a r => addAllToJsSet a r.2) acc ↔
      x ∈ acc ∨ ∃ r ∈ regs, x ∈ r.2) := by
  induction regs with
  | nil => intro acc x; simp
  | cons r rest ih =>
    intro acc x
    show x ∈ rest.foldl _ (addAllToJsSet acc r.2) ↔ _
    rw [ih (addAllToJsSet acc r.2) x, mem_addAllToJsSet]
    simp only [List.mem_cons]
    constructor
    · rintro ((h | h) | ⟨r1, h1, h2⟩)
      · exact Or.inl h
      · exact Or.inr ⟨r, Or.inl rfl, h⟩
      · exact Or.inr ⟨r1, Or.inr h1, h2⟩
    · rintro (h | ⟨r1, (rfl | h1), h2⟩)
      · exact Or.inl (Or.inl h)
      · exact Or.inl (Or.inr h2)
      · exact Or.inr ⟨r1, h1, h2⟩

theorem registerDocsHook_first (collectionPath hookId : String) (ids : List String) :
    (CollectionService.registerDocsHook CollectionService.empty hookId
      collectionPath ids).map (fun r => r.1) =
      Except.ok (burstState collectionPath (addAllToJsSet [] ids) [hookId]
        [(hookId, ids)]) := by
  unfold CollectionService.registerDocsHook CollectionService.empty burstState
  simp [aget, aset, ChunkedSnapshotListener.make, Except.map, pure, Except.pure,
    bind, Except.bind]

theorem registerDocsHook_join (collectionPath hookId : String) (ids : List String)
    (accIds : List String) (hooks : List String) (docIds : List (String × List String)) :
    (CollectionService.registerDocsHook
      (burstState collectionPath accIds hooks docIds) hookId collectionPath ids).map
        (fun r => r.1) =
      Except.ok (burstState collectionPath (addAllToJsSet accIds ids)
        (hooks ++ [hookId]) (aset docIds hookId ids)) := by
  have haddids := addIds_waiting_eq
    { collectionPath := collectionPath, ids := accIds, chunks := [], chunkIsLoaded := [],
      unsubscribes := [], status := .waiting, isLoaded := false, localNext := 0 }
    ids rfl
  simp only [] at haddids
  unfold CollectionService.registerDocsHook burstState
  simp [aget, aset, CollectionService.listenerAt, CollectionService.setListener,
    CollectionService.withTrace, haddids, Except.map,
    pure, Except.pure, bind, Except.bind]
  simpa using addAllToJsSet_filter_self accIds ids

theorem runRegs_burst (collectionPath : String) (rest : List (String × List String)) :
    ∀ (accIds : List String) (hooks : List String)
      (docIds : List (String × List String)),
    ∃ docIds2,
    CollectionService.runOps (burstState collectionPath accIds hooks docIds)
      (rest.map (fun r => CollectionOp.register r.1 collectionPath r.2)) =
      Except.ok (burstState collectionPath
        (rest.foldl (fun a r => addAllToJsSet a r.2) accIds)
        (hooks ++ rest.map (fun r => r.1)) docIds2) := by
  induction rest with
  | nil =>
    intro a h d
    exact ⟨d, by simp [CollectionService.runOps]⟩
  | cons r rest ih =>
    intro a h d
    obtain ⟨d2, hd2⟩ := ih (addAllToJsSet a r.2) (h ++ [r.1]) (aset d r.1 r.2)
    refine ⟨d2, ?_⟩
    show CollectionService.runOps _
      (CollectionOp.register r.1 collectionPath r.2 ::
        rest.map (fun r => CollectionOp.register r.1 collectionPath r.2)) = _
    unfold CollectionService.runOps
    have hstep := registerDocsHook_join collectionPath r.1 r.2 a h d
    simp only [CollectionService.applyOp]
    rw [show (CollectionService.registerDocsHook
      (burstState collectionPath a h d) r.1 collectionPath r.2).map (fun r => r.1) =
        Except.ok (burstState collectionPath (addAllToJsSet a r.2)
          (h ++ [r.1]) (aset d r.1 r.2)) from hstep]
    simp only [bind, Except.bind]
    rw [hd2]
    simp

theorem openedChunkSubs_mapped (lid : Nat) (evs : List ListenerEvent) :
    (openedChunkSubs (evs.map (fun e => match e with
      | .opened sub c => CollectionEvent.chunkSubscribe lid sub c
      | .closed sub => CollectionEvent.chunkUnsubscribe lid sub))).map
        (fun t => t.2.2) =
    evs.filterMap (fun e => match e with
      | .opened _ c => some c
      | .closed _ => none) := by
  induction evs with
  | nil => rfl
  | cons e rest ih =>
    cases e with
    | opened sub c => simpa [openedChunkSubs, List.filterMap_cons] using ih
    | closed sub => simpa [openedChunkSubs, List.filterMap_cons] using ih

theorem fireFirstTick_burst_spec (collectionPath : String) (accIds : List String)
    (hooks : List String) (docIds : List (String × List String)) :
    ((burstState collectionPath accIds hooks docIds).fireFirstTick.listenerHeap.length
      = 1) ∧
    ((openedChunkSubs
      (burstState collectionPath accIds hooks docIds).fireFirstTick.trace).map
        (fun t => t.2.2) = chunk accIds 30) := by
  have hsnc := subscribeNewChunks_spec
    { collectionPath := collectionPath, ids := accIds, chunks := [], chunkIsLoaded := [],
      unsubscribes := [], status := .started, isLoaded := false, localNext := 0 }
    accIds
  have hmapped := openedChunkSubs_mapped 0
    (({ collectionPath := collectionPath, ids := accIds, chunks := [],
        chunkIsLoaded := [], unsubscribes := [], status := .started, isLoaded := false,
        localNext := 0 } : ChunkedSnapshotListener).subscribeNewChunks accIds).2
  unfold CollectionService.fireFirstTick burstState
  simp only [CollectionService.listenerAt, CollectionService.setListener,
    CollectionService.withTrace, ChunkedSnapshotListener.start]
  simp only [List.find?, List.map, decide_True, Option.map, if_true]
  constructor
  · simp
  · simp only [List.nil_append]
    rw [hmapped]
    exact hsnc.2.2.2.2

/-- C4: when K callers register docs-hooks against the same new collection
key within the deferred-tick window — from a fresh service, K registrations
before the tick fires — exactly one chunked listener is ever created, and
the chunk subscriptions opened when the tick starts it cover exactly the
union of all K callers' wanted ids. -/
theorem c4_burst_registrations_batch_union (collectionPath : String)
    (regs : List (String × List String)) (hne : regs ≠ []) :
    ∃ w : CollectionService,
      CollectionService.runOps CollectionService.empty
        (regs.map (fun r => CollectionOp.register r.1 collectionPath r.2)) =
        Except.ok w ∧
      w.fireFirstTick.listenerHeap.length = 1 ∧
      (∀ x, x ∈ ((openedChunkSubs w.fireFirstTick.trace).map
          (fun t => t.2.2)).flatten ↔ ∃ r ∈ regs, x ∈ r.2) := by
  obtain ⟨r0, rest, rfl⟩ : ∃ r0 rest, regs = r0 :: rest := by
    cases regs with
    | nil => exact absurd rfl hne
    | cons a b => exact ⟨a, b, rfl⟩
  obtain ⟨d2, hrun⟩ := runRegs_burst collectionPath rest (addAllToJsSet [] r0.2)
    [r0.1] [(r0.1, r0.2)]
  refine ⟨burstState collectionPath
    (rest.foldl (fun a r => addAllToJsSet a r.2) (addAllToJsSet [] r0.2))
    ([r0.1] ++ rest.map (fun r => r.1)) d2, ?_, ?_, ?_⟩
  · show CollectionService.runOps _
      (CollectionOp.register r0.1 collectionPath r0.2 ::
        rest.map (fun r => CollectionOp.register r.1 collectionPath r.2)) = _
    unfold CollectionService.runOps
    simp only [CollectionService.applyOp]
    rw [show (CollectionService.registerDocsHook CollectionService.empty r0.1
      collectionPath r0.2).map (fun r => r.1) =
        Except.ok (burstState collectionPath (addAllToJsSet [] r0.2) [r0.1]
          [(r0.1, r0.2)]) from registerDocsHook_first collectionPath r0.1 r0.2]
    simp only [bind, Except.bind]
    exact hrun
  · exact (fireFirstTick_burst_spec collectionPath _ _ _).1
  · intro x
    rw [(fireFirstTick_burst_spec collectionPath _ _ _).2, chunk_flatten]
    rw [mem_foldl_addAllToJsSet, mem_addAllToJsSet]
    simp only [List.not_mem_nil, false_or, List.mem_cons]
    constructor
    · rintro (h | ⟨r1, h1, h2⟩)
      · exact ⟨r0, Or.inl rfl, h⟩
      · exact ⟨r1, Or.inr h1, h2⟩
    · rintro ⟨r1, (rfl | h1), h2⟩
      · exact Or.inl h2
      · exact Or.inr ⟨r1, h1, h2⟩

/-- Witness for C4 at Scenario A: two hooks register for the tags
collection in the same tick window, wanting overlapping id sets. -/
theorem c4_burst_registrations_batch_union_witness :
    ([("h1", ["a", "b"]), ("h2", ["b", "c"])] ≠
      ([] : List (String × List String))) ∧
    (∃ w : CollectionService,
      CollectionService.runOps CollectionService.empty
        ([("h1", ["a", "b"]), ("h2", ["b", "c"])].map
          (fun r => CollectionOp.register r.1 "tags" r.2)) = Except.ok w ∧
      w.fireFirstTick.listenerHeap.length = 1 ∧
      (∀ x, x ∈ ((openedChunkSubs w.fireFirstTick.trace).map
          (fun t => t.2.2)).flatten ↔
        ∃ r ∈ [("h1", ["a", "b"]), ("h2", ["b", "c"])], x ∈ r.2)) :=
  ⟨by decide, c4_burst_registrations_batch_union "tags"
    [("h1", ["a", "b"]), ("h2", ["b", "c"])] (by decide)⟩

/-- C3 (code bug): the deferred first-subscription tick does not re-check
registry state. After the only hook registers and unregisters — which
shuts the listener down and removes it from the path map — the pending
tick callback still calls `start()` on the captured listener and opens a
chunk subscription: one live network subscription for the collection key
with zero callers registered, where the claim requires none to be
opened. -/
theorem c3_tick_fires_after_teardown_opens_subscription :
    ∃ w : CollectionService,
      CollectionService.runOps CollectionService.empty
        [CollectionOp.register "h1" "tags" ["a"],
         CollectionOp.unregister "h1" "tags",
         CollectionOp.tick] = Except.ok w ∧
      aget w.subscriptionsByCollectionPath "tags" = some [] ∧
      aget w.snapshotListenersByCollectionPath "tags" = none ∧
      liveChunkSubs w.trace = [(0, 0, ["a"])] :=
  ⟨_, rfl, rfl, rfl, rfl⟩

/-- C1 (code bug): two live network subscriptions for the same collection
key. The zombie subscription opened by the unchecked tick (see C3) stays
live with no unsubscribe path, and a later caller for the same key finds
no listener in the map and opens a second one: after its tick, two chunk
subscriptions for collection `tags` are live at once. -/
theorem c1_two_live_subscriptions_same_key :
    ∃ w : CollectionService,
      CollectionService.runOps CollectionService.empty
        [CollectionOp.register "h1" "tags" ["a"],
         CollectionOp.unregister "h1" "tags",
         CollectionOp.tick,
         CollectionOp.register "h2" "tags" ["a"],
         CollectionOp.tick] = Except.ok w ∧
      w.listenerHeap.map (fun p => p.2.collectionPath) = ["tags", "tags"] ∧
      liveChunkSubs w.trace = [(0, 0, ["a"]), (1, 0, ["a"])] ∧
      (liveChunkSubs w.trace).length = 2 :=
  ⟨_, rfl, rfl, rfl, rfl⟩

/-- C6 (code bug): with two hooks each waiting on a missing id, the
fully-loaded snapshot handler invokes `onError` for the first waiting hook
and then returns from the whole notification loop, so the second waiting
hook receives nothing — where the claim requires the error to reach every
caller still waiting on a missing id. -/
theorem c6_only_first_waiting_hook_gets_onError :
    ∃ w : CollectionService,
      CollectionService.runOps CollectionService.empty
        [CollectionOp.register "h1" "tags" ["x"],
         CollectionOp.register "h2" "tags" ["y"],
         CollectionOp.tick,
         CollectionOp.snapshot 0 0 []] = Except.ok w ∧
      callbackEvents w.trace =
        [CollectionEvent.onError "h1" "No document in collection tags with id(s) x"] :=
  ⟨_, rfl, rfl⟩

/-! ## deleteDocs batch bookkeeping (C9) -/

theorem make_wellFormed : BatchOfBatches.make.wellFormed := by
  refine ⟨rfl, by decide, ?_, rfl⟩
  intro x hx
  cases hx

theorem emit_wellFormed (b : BatchOfBatches) (op : WriteOperation)
    (h : b.wellFormed) : ((b.addOperation op).incrementOperation).wellFormed := by
  obtain ⟨h1, h2, h3, h4⟩ := h
  unfold BatchOfBatches.addOperation BatchOfBatches.incrementOperation
  by_cases hcount : b.operationCount + 1 < 500
  · rw [if_pos hcount]
    refine ⟨by simp [h1], hcount, h3, ?_⟩
    show b.batches.flatten ++ (b.currentBatch ++ [op]) = b.log ++ [op]
    rw [← h4]
    simp [List.append_assoc]
  · rw [if_neg hcount]
    have hfull : b.operationCount + 1 = 500 := by omega
    refine ⟨rfl, by simp, ?_, ?_⟩
    · intro x hx
      rcases List.mem_append.mp hx with hx1 | hx1
      · exact h3 x hx1
      · have : x = b.currentBatch ++ [op] := by simpa using hx1
        subst this
        simp only [List.length_append, List.length_singleton]
        omega
    · show (b.batches ++ [b.currentBatch ++ [op]]).flatten ++ [] = b.log ++ [op]
      simp only [List.flatten_append, List.flatten_cons, List.flatten_nil,
        List.append_nil]
      rw [← h4]
      simp [List.append_assoc]

theorem foldl_emit_wellFormed {α : Type} (g : α → WriteOperation) (l : List α) :
    ∀ b : BatchOfBatches, b.wellFormed →
    (l.foldl (fun b x => (b.addOperation (g x)).incrementOperation) b).wellFormed := by
  induction l with
  | nil => intro b h; exact h
  | cons x rest ih =>
    intro b h
    exact ih _ (emit_wellFormed b (g x) h)

theorem foldlM_wellFormed_preserve {α : Type}
    (f : BatchOfBatches → α → Except String BatchOfBatches)
    (hstep : ∀ b x b2, f b x = .ok b2 → b.wellFormed → b2.wellFormed)
    (l : List α) :
    ∀ b b2, l.foldlM f b = .ok b2 → b.wellFormed → b2.wellFormed := by
  induction l with
  | nil =>
    intro b b2 heq h
    simp only [List.foldlM_nil] at heq
    cases heq
    exact h
  | cons x rest ih =>
    intro b b2 heq h
    simp only [List.foldlM_cons] at heq
    cases hx : f b x with
    | error e => rw [hx] at heq; cases heq
    | ok b1 =>
      rw [hx] at heq
      simp only [bind, Except.bind] at heq
      exact ih b1 b2 heq (hstep b x b1 hx h)

theorem except_bind_eq_ok {β γ : Type} {e : Except String β}
    {k : β → Except String γ} {v2 : γ}
    (h : (e >>= k) = Except.ok v2) :
    ∃ v1, e = Except.ok v1 ∧ k v1 = Except.ok v2 := by
  cases e with
  | error err => simp [Bind.bind, Except.bind] at h
  | ok v => exact ⟨v, rfl, by simpa [Bind.bind, Except.bind] using h⟩

theorem addAssociationOperationsToBatches_wellFormed (env : DeleteEnv) :
    ∀ (assocs : List Association) (ids : List String) (b b2 : BatchOfBatches),
    addAssociationOperationsToBatches env b assocs ids = .ok b2 →
    b.wellFormed → b2.wellFormed := by
  intro assocs
  induction assocs using
      (measure (fun assocs : List Association => sizeOf assocs)).wf.induction with
  | _ assocs ih =>
    intro ids b b2 heq hwf
    rw [addAssociationOperationsToBatches.eq_def] at heq
    by_cases hids : ids.length < 1
    · rw [if_pos hids] at heq
      cases heq
      exact hwf
    · rw [if_neg hids] at heq
      split at heq
      · cases heq
        exact hwf
      · rename_i association rest
        have hrest : sizeOf rest < sizeOf (association :: rest) := by
          cases association
          simp
          try omega
        split at heq
        · obtain ⟨bmid, hmid, heq2⟩ := except_bind_eq_ok heq
          obtain ⟨y, hy, heq3⟩ := except_bind_eq_ok heq2
          have hbmid : bmid.wellFormed := by
            refine ih association.associations ?_ _ b bmid hmid hwf
            show sizeOf association.associations < sizeOf (association :: rest)
            cases association
            simp [Association.associations]
            omega
          have hyeq :
              ((env.queryIn association.collection association.field ids).foldl
                (fun b associatedDoc =>
                  (b.addOperation
                    (.deleteOp associatedDoc.ref)).incrementOperation) bmid) = y := by
            simpa [pure, Except.pure] using hy
          have hywf : y.wellFormed := by
            rw [← hyeq]
            exact foldl_emit_wellFormed
              (fun d : DeleteDocSnapshot => WriteOperation.deleteOp d.ref) _ bmid hbmid
          exact ih rest hrest ids y b2 heq3 hywf
        · obtain ⟨y, hy, heq2⟩ := except_bind_eq_ok heq
          have hywf : y.wellFormed := by
            refine foldlM_wellFormed_preserve _ ?_ _ b y hy hwf
            intro b0 x b3 hx hbwf
            obtain ⟨scrub, hscrub, hpure⟩ := except_bind_eq_ok hx
            have hb3 : ((b0.addOperation (.updateOp x.ref association.field
                (scrub.filter (fun id => ¬ id ∈ ids)))).incrementOperation) = b3 := by
              simpa [pure, Except.pure] using hpure
            rw [← hb3]
            exact emit_wellFormed _ _ hbwf
          exact ih rest hrest ids y b2 heq2 hywf

/-- C9: for every input to deleteDocs, every committed write batch holds
at most 500 operations, and the batches committed (sequentially, each
awaited, in the order the code fills them) concatenate to exactly the full
operation log in emission order. -/
theorem c9_commits_at_most_500_in_fill_order (env : DeleteEnv) (collection : String)
    (idsToDelete : List String) (associations : List Association)
    (b : BatchOfBatches) (commits : List (List WriteOperation))
    (h : deleteDocs env collection idsToDelete associations =
      Except.ok (b, commits)) :
    (∀ batch ∈ commits, batch.length ≤ 500) ∧ commits.flatten = b.log := by
  unfold deleteDocs at h
  obtain ⟨b1, hb1, h2⟩ := except_bind_eq_ok h
  have hb1wf : b1.wellFormed :=
    addAssociationOperationsToBatches_wellFormed env associations idsToDelete
      BatchOfBatches.make b1 hb1 make_wellFormed
  have hb2wf : (idsToDelete.foldl (fun b id =>
      (b.addOperation (.deleteOp (collection ++ "/" ++ id))).incrementOperation)
      b1).wellFormed :=
    foldl_emit_wellFormed
      (fun id : String => WriteOperation.deleteOp (collection ++ "/" ++ id))
      idsToDelete b1 hb1wf
  have hpair : (idsToDelete.foldl (fun b id =>
      (b.addOperation (.deleteOp (collection ++ "/" ++ id))).incrementOperation)
      b1 = b) ∧
      ((idsToDelete.foldl (fun b id =>
        (b.addOperation (.deleteOp (collection ++ "/" ++ id))).incrementOperation)
        b1).batches ++
      (if 0 < (idsToDelete.foldl (fun b id =>
          (b.addOperation (.deleteOp (collection ++ "/" ++ id))).incrementOperation)
          b1).operationCount then
        [(idsToDelete.foldl (fun b id =>
          (b.addOperation (.deleteOp (collection ++ "/" ++ id))).incrementOperation)
          b1).currentBatch]
      else []) = commits) := by
    have := h2
    simp only [pure, Except.pure, gt_iff_lt] at this
    exact ⟨congrArg Prod.fst (Except.ok.inj this),
      congrArg Prod.snd (Except.ok.inj this)⟩
  obtain ⟨hb, hc⟩ := hpair
  rw [hb] at hb2wf
  obtain ⟨w1, w2, w3, w4⟩ := hb2wf
  subst hb
  constructor
  · intro batch hbatch
    rw [← hc] at hbatch
    rcases List.mem_append.mp hbatch with hm | hm
    · exact Nat.le_of_eq (w3 batch hm)
    · by_cases hcount : 0 < (idsToDelete.foldl (fun b id =>
          (b.addOperation (.deleteOp (collection ++ "/" ++ id))).incrementOperation)
          b1).operationCount
      · rw [if_pos hcount] at hm
        have : batch = (idsToDelete.foldl (fun b id =>
            (b.addOperation
              (.deleteOp (collection ++ "/" ++ id))).incrementOperation)
            b1).currentBatch := by simpa using hm
        subst this
        omega
      · rw [if_neg hcount] at hm
        cases hm
  · rw [← hc]
    by_cases hcount : 0 < (idsToDelete.foldl (fun b id =>
        (b.addOperation (.deleteOp (collection ++ "/" ++ id))).incrementOperation)
        b1).operationCount
    · rw [if_pos hcount]
      simp only [List.flatten_append, List.flatten_cons, List.flatten_nil,
        List.append_nil]
      exact w4
    · rw [if_neg hcount]
      have hnil : (idsToDelete.foldl (fun b id =>
          (b.addOperation (.deleteOp (collection ++ "/" ++ id))).incrementOperation)
          b1).currentBatch = [] := by
        have : (idsToDelete.foldl (fun b id =>
            (b.addOperation (.deleteOp (collection ++ "/" ++ id))).incrementOperation)
            b1).operationCount = 0 := by omega
        rw [this] at w1
        exact (List.eq_nil_of_length_eq_zero w1.symm)
      rw [← w4, hnil]
      simp

/-- Witness for C9: deleting two documents with no associations commits a
single batch holding both delete operations. -/
theorem c9_commits_at_most_500_in_fill_order_witness :
    (deleteDocs emptyDeleteEnv "tags" ["a", "b"] [] = Except.ok
      ({ currentBatch := [.deleteOp "tags/a", .deleteOp "tags/b"],
         batches := [],
         operationCount := 2,
         log := [.deleteOp "tags/a", .deleteOp "tags/b"] },
       [[WriteOperation.deleteOp "tags/a", WriteOperation.deleteOp "tags/b"]])) ∧
    ((∀ batch ∈ [[WriteOperation.deleteOp "tags/a", WriteOperation.deleteOp "tags/b"]],
        batch.length ≤ 500) ∧
      [[WriteOperation.deleteOp "tags/a", WriteOperation.deleteOp "tags/b"]].flatten =
        ({ currentBatch := [.deleteOp "tags/a", .deleteOp "tags/b"],
           batches := [],
           operationCount := 2,
           log := [.deleteOp "tags/a", .deleteOp "tags/b"] } : BatchOfBatches).log) := by
  have h0 : addAssociationOperationsToBatches emptyDeleteEnv BatchOfBatches.make []
      ["a", "b"] = Except.ok BatchOfBatches.make := by
    rw [addAssociationOperationsToBatches.eq_def]
    simp
  have hrun : deleteDocs emptyDeleteEnv "tags" ["a", "b"] [] = Except.ok
      ({ currentBatch := [.deleteOp "tags/a", .deleteOp "tags/b"],
         batches := [],
         operationCount := 2,
         log := [.deleteOp "tags/a", .deleteOp "tags/b"] },
       [[WriteOperation.deleteOp "tags/a", WriteOperation.deleteOp "tags/b"]]) := by
    unfold deleteDocs
    simp only [h0]
    rfl
  exact ⟨hrun, c9_commits_at_most_500_in_fill_order emptyDeleteEnv "tags" ["a", "b"]
    [] _ _ hrun⟩

/-- C2: from any state in which hook h1 owns the live document subscription
u for path p (h1 a registered listener, no waiting owner candidates, no
pending timers), unregistering h1 schedules the grace timer; if a new hook
h2 registers for p within the window, the timer firing makes zero
additional store calls and the still-pending subscription u is reassigned
to h2; if no new consumer appears, the timer firing makes exactly one
store call — the unsubscribe of u — at time now + UNSUBSCRIBE_DELAY. -/
theorem c2_grace_period_handoff (w : SubscriptionService)
    (h1 h2 p : String) (u i : Nat) (ls : List String)
    (hown : aget w.ownerByDocPath p = some h1)
    (hunsub : aget w.unsubscribeFunctionsByDocPath p = some u)
    (hls : aget w.docListenersByPath p = some ls)
    (hfind : ls.findIdx? (fun h => h = h1) = some i)
    (hassign : (aget w.assignDocOwnerFunctionsByPath p).getD [] = [])
    (htimers : w.timers = []) :
    ∃ w1, w.unregisterDocHook h1 p = Except.ok w1 ∧
      (∃ w2 c, w1.registerDocHook h2 p = Except.ok (w2, c) ∧
        ∃ w3, w2.fireFirstTimer = Except.ok w3 ∧
          storeCalls w3.trace = storeCalls w.trace ∧
          aget w3.ownerByDocPath p = some h2 ∧
          aget w3.unsubscribeFunctionsByDocPath p = some u ∧
          w3.timers = []) ∧
      (∃ w4, w1.fireFirstTimer = Except.ok w4 ∧
        storeCalls w4.trace = storeCalls w.trace ++
          [(w.now + UNSUBSCRIBE_DELAY, StoreCall.unsubscribeDoc u)] ∧
        w4.timers = []) := by
  simp only [Option.getD] at hassign
  refine ⟨{ w with
      docListenersByPath := aset w.docListenersByPath p (ls.eraseIdx i)
      timers := [⟨w.now + UNSUBSCRIBE_DELAY, h1, p⟩] }, ?_, ?_, ?_⟩
  · simp [SubscriptionService.unregisterDocHook, hown, hls, hfind, htimers]
  · cases hc : aget w.lastDocByPath p with
    | none =>
      refine ⟨{ w with
          docListenersByPath :=
            aset (aset w.docListenersByPath p (ls.eraseIdx i)) p
              (ls.eraseIdx i ++ [h2])
          assignDocOwnerFunctionsByPath :=
            aset (aset w.assignDocOwnerFunctionsByPath p []) p [h2]
          timers := [⟨w.now + UNSUBSCRIBE_DELAY, h1, p⟩] }, none, ?_, ?_⟩
      · simp [SubscriptionService.registerDocHook, hown, hassign, hc, Option.getD]
      · refine ⟨{ w with
            docListenersByPath :=
              aset (aset w.docListenersByPath p (ls.eraseIdx i)) p
                (ls.eraseIdx i ++ [h2])
            assignDocOwnerFunctionsByPath :=
              aset (aset (aset w.assignDocOwnerFunctionsByPath p []) p [h2]) p []
            ownerByDocPath := aset (aerase w.ownerByDocPath p) p h2
            now := w.now + UNSUBSCRIBE_DELAY
            timers := [] }, ?_, ?_, ?_, ?_, ?_⟩
        · simp [SubscriptionService.fireFirstTimer,
            SubscriptionService.unsubscribeDoc,
            SubscriptionService.takeOwnershipDoc, hown, hunsub, Option.getD]
        · rfl
        · simp
        · exact hunsub
        · rfl
    | some d =>
      refine ⟨{ w with
          docListenersByPath :=
            aset (aset w.docListenersByPath p (ls.eraseIdx i)) p
              (ls.eraseIdx i ++ [h2])
          assignDocOwnerFunctionsByPath :=
            aset (aset w.assignDocOwnerFunctionsByPath p []) p [h2]
          timers := [⟨w.now + UNSUBSCRIBE_DELAY, h1, p⟩]
          trace := w.trace ++ [(w.now, .notifyDoc h2 d)] }, some d, ?_, ?_⟩
      · simp [SubscriptionService.registerDocHook, hown, hassign, hc, Option.getD]
      · refine ⟨{ w with
            docListenersByPath :=
              aset (aset w.docListenersByPath p (ls.eraseIdx i)) p
                (ls.eraseIdx i ++ [h2])
            assignDocOwnerFunctionsByPath :=
              aset (aset (aset w.assignDocOwnerFunctionsByPath p []) p [h2]) p []
            ownerByDocPath := aset (aerase w.ownerByDocPath p) p h2
            now := w.now + UNSUBSCRIBE_DELAY
            timers := []
            trace := w.trace ++ [(w.now, .notifyDoc h2 d)] }, ?_, ?_, ?_, ?_, ?_⟩
        · simp [SubscriptionService.fireFirstTimer,
            SubscriptionService.unsubscribeDoc,
            SubscriptionService.takeOwnershipDoc, hown, hunsub, Option.getD]
        · simp [storeCalls, List.filter_append]
        · simp
        · exact hunsub
        · rfl
  · refine ⟨{ w with
        docListenersByPath := aset w.docListenersByPath p (ls.eraseIdx i)
        assignDocOwnerFunctionsByPath := aset w.assignDocOwnerFunctionsByPath p []
        ownerByDocPath := aerase w.ownerByDocPath p
        now := w.now + UNSUBSCRIBE_DELAY
        timers := []
        trace := w.trace ++ [(w.now + UNSUBSCRIBE_DELAY, .unsubscribeDoc u)] },
      ?_, ?_, ?_⟩
    · simp [SubscriptionService.fireFirstTimer,
        SubscriptionService.unsubscribeDoc, hown, hunsub, hassign, Option.getD]
    · simp [storeCalls, List.filter_append]
    · rfl

/-- Witness for C2: on the state where hook h1 owns document subscription 0
for `repos/1`, both grace-window scenarios play out as claimed. -/
theorem c2_grace_period_handoff_witness :
    aget docWorldH1.ownerByDocPath "repos/1" = some "h1" ∧
    (∃ w1, docWorldH1.unregisterDocHook "h1" "repos/1" = Except.ok w1 ∧
      (∃ w2 c, w1.registerDocHook "h2" "repos/1" = Except.ok (w2, c) ∧
        ∃ w3, w2.fireFirstTimer = Except.ok w3 ∧
          storeCalls w3.trace = storeCalls docWorldH1.trace ∧
          aget w3.ownerByDocPath "repos/1" = some "h2" ∧
          aget w3.unsubscribeFunctionsByDocPath "repos/1" = some 0 ∧
          w3.timers = []) ∧
      (∃ w4, w1.fireFirstTimer = Except.ok w4 ∧
        storeCalls w4.trace = storeCalls docWorldH1.trace ++
          [(docWorldH1.now + UNSUBSCRIBE_DELAY, StoreCall.unsubscribeDoc 0)] ∧
        w4.timers = [])) :=
  ⟨by rfl, c2_grace_period_handoff docWorldH1 "h1" "h2" "repos/1" 0 0 ["h1"]
    (by rfl) (by rfl) (by rfl) (by rfl) (by rfl) (by rfl)⟩

/-- C10: on any state where some query hook hq owns document path p and the
snapshot delivery cached document d at p, registering a new document hook
for p makes no store call and allocates no subscription handle: it returns
the cached d synchronously and only appends the hook as a passive listener
and as a candidate next owner, leaving ownership and the unsubscribe
records untouched. -/
theorem c10_register_doc_hook_on_query_owned_path (w : SubscriptionService)
    (hq h2 p : String) (d : CachedDocument)
    (hown : aget w.ownerByDocPath p = some hq)
    (hlast : aget w.lastDocByPath p = some d) :
    ∃ w', w.registerDocHook h2 p = Except.ok (w', some d) ∧
      storeCalls w'.trace = storeCalls w.trace ∧
      w'.nextSub = w.nextSub ∧
      aget w'.docListenersByPath p =
        some ((aget w.docListenersByPath p).getD [] ++ [h2]) ∧
      aget w'.assignDocOwnerFunctionsByPath p =
        some ((aget w.assignDocOwnerFunctionsByPath p).getD [] ++ [h2]) ∧
      w'.ownerByDocPath = w.ownerByDocPath ∧
      w'.unsubscribeFunctionsByDocPath = w.unsubscribeFunctionsByDocPath := by
  refine ⟨{ w with
      docListenersByPath :=
        aset w.docListenersByPath p ((aget w.docListenersByPath p).getD [] ++ [h2])
      assignDocOwnerFunctionsByPath :=
        aset (aset w.assignDocOwnerFunctionsByPath p
          ((aget w.assignDocOwnerFunctionsByPath p).getD [])) p
          ((aget w.assignDocOwnerFunctionsByPath p).getD [] ++ [h2])
      trace := w.trace ++ [(w.now, .notifyDoc h2 d)] }, ?_, ?_, ?_, ?_, ?_, ?_, ?_⟩
  · simp [SubscriptionService.registerDocHook, hown, hlast, Option.getD]
  · simp [storeCalls, List.filter_append]
  · rfl
  · simp
  · simp
  · rfl
  · rfl

/-- Witness for C10: on the state where query hook q1 owns `repos/1` with
document 1 cached, a new document hook h2 registers passively and receives
the cached document. -/
theorem c10_register_doc_hook_on_query_owned_path_witness :
    aget queryWorldQ1.ownerByDocPath "repos/1" = some "q1" ∧
    aget queryWorldQ1.lastDocByPath "repos/1" =
      some { id := "1", pathTag := some "repos/1", data := 42 } ∧
    (∃ w', queryWorldQ1.registerDocHook "h2" "repos/1" = Except.ok
        (w', some { id := "1", pathTag := some "repos/1", data := 42 }) ∧
      storeCalls w'.trace = storeCalls queryWorldQ1.trace ∧
      w'.nextSub = queryWorldQ1.nextSub ∧
      aget w'.docListenersByPath "repos/1" =
        some ((aget queryWorldQ1.docListenersByPath "repos/1").getD [] ++ ["h2"]) ∧
      aget w'.assignDocOwnerFunctionsByPath "repos/1" =
        some ((aget queryWorldQ1.assignDocOwnerFunctionsByPath "repos/1").getD []
          ++ ["h2"]) ∧
      w'.ownerByDocPath = queryWorldQ1.ownerByDocPath ∧
      w'.unsubscribeFunctionsByDocPath =
        queryWorldQ1.unsubscribeFunctionsByDocPath) :=
  ⟨by rfl, by rfl, c10_register_doc_hook_on_query_owned_path queryWorldQ1 "q1" "h2"
    "repos/1" { id := "1", pathTag := some "repos/1", data := 42 }
    (by rfl) (by rfl)⟩

theorem decDigit_toNat_bounds (d : Nat) :
    48 ≤ (decDigit d).toNat ∧ (decDigit d).toNat ≤ 57 := by
  unfold decDigit
  split <;> decide

theorem decDigit_toNat_val (d : Nat) (h : d < 10) :
    (decDigit d).toNat - 48 = d := by
  interval_cases d <;> decide

theorem decVal_concat (l : List Char) (c : Char) :
    decVal (l ++ [c]) = decVal l * 10 + (c.toNat - 48) := by
  simp [decVal, List.foldl_append]

theorem decVal_natToDec (n : Nat) : decVal (natToDec n).data = n := by
  induction n using Nat.strong_induction_on with
  | _ n ih =>
    rw [natToDec]
    split
    · rename_i h
      simp only [decVal, List.foldl_cons, List.foldl_nil]
      simp only [Nat.zero_mul, Nat.zero_add]
      exact decDigit_toNat_val n h
    · rename_i h
      have hlt : n / 10 < n := Nat.div_lt_self (by omega) (by omega)
      have hmod : n % 10 < 10 := Nat.mod_lt _ (by omega)
      have hdata : (natToDec (n / 10) ++ String.mk [decDigit (n % 10)]).data
          = (natToDec (n / 10)).data ++ [decDigit (n % 10)] := String.data_append _ _
      rw [hdata, decVal_concat, ih _ hlt, decDigit_toNat_val _ hmod]
      omega

theorem natToDec_inj (m n : Nat) (h : natToDec m = natToDec n) : m = n := by
  have h2 := congrArg (fun s => decVal s.data) h
  simpa [decVal_natToDec] using h2

theorem natToDec_head (n : Nat) :
    ∃ c l, (natToDec n).data = c :: l ∧ 48 ≤ c.toNat ∧ c.toNat ≤ 57 := by
  induction n using Nat.strong_induction_on with
  | _ n ih =>
    rw [natToDec]
    split
    · exact ⟨decDigit n, [], rfl, decDigit_toNat_bounds n⟩
    · rename_i h
      obtain ⟨c, l, hd, hb⟩ := ih (n / 10) (Nat.div_lt_self (by omega) (by omega))
      refine ⟨c, l ++ [decDigit (n % 10)], ?_, hb⟩
      rw [String.data_append, hd]
      rfl

theorem jsIntToString_head (n : Int) :
    ∃ c l, (jsIntToString n).data = c :: l ∧
      (c.toNat = 45 ∨ (48 ≤ c.toNat ∧ c.toNat ≤ 57)) := by
  cases n with
  | ofNat m =>
    obtain ⟨c, l, hd, hb⟩ := natToDec_head m
    exact ⟨c, l, hd, Or.inr hb⟩
  | negSucc m =>
    refine ⟨Char.ofNat 45, (natToDec (m + 1)).data, ?_, Or.inl (by decide)⟩
    show (("-" : String) ++ natToDec (m + 1)).data = _
    rw [String.data_append]
    rfl

theorem str_ne_of_head (x y : String) (c d : Char) (u v : List Char)
    (hx : x.data = c :: u) (hy : y.data = d :: v)
    (h : c.toNat ≠ d.toNat) : x ≠ y := by
  intro he
  rw [he] at hx
  have h2 : c :: u = d :: v := hx.symm.trans hy
  injection h2 with h3 _
  exact h (congrArg Char.toNat h3)

theorem string_cancel_left (a x y : String) (h : a ++ x = a ++ y) : x = y := by
  have hd := congrArg String.data h
  rw [String.data_append, String.data_append] at hd
  exact String.ext (List.append_cancel_left hd)

theorem string_cancel_right (x y b : String) (h : x ++ b = y ++ b) : x = y := by
  have hd := congrArg String.data h
  rw [String.data_append, String.data_append] at hd
  exact String.ext (List.append_cancel_right hd)

theorem string_cancel_mid (a x y b : String) (h : a ++ x ++ b = a ++ y ++ b) :
    x = y :=
  string_cancel_left a x y (string_cancel_right _ _ b h)

theorem quoted_data (s : String) :
    (("\"" ++ s ++ "\"") : String).data = Char.ofNat 34 :: (s.data ++ [Char.ofNat 34]) := by
  rw [String.data_append, String.data_append]
  rfl

theorem serialize_str_eq_str (s t : String)
    (h : serialize (.str s) = serialize (.str t)) : s = t := by
  by_cases hs : s = "NULL_VALUE" <;> by_cases ht : t = "NULL_VALUE"
  · rw [hs, ht]
  · simp only [serialize, if_pos hs, if_neg ht] at h
    exact absurd h (str_ne_of_head _ _ 'n' (Char.ofNat 34) _ _ rfl (quoted_data t)
      (by decide))
  · simp only [serialize, if_neg hs, if_pos ht] at h
    exact absurd h.symm (str_ne_of_head _ _ 'n' (Char.ofNat 34) _ _ rfl
      (quoted_data s) (by decide))
  · simp only [serialize, if_neg hs, if_neg ht] at h
    exact string_cancel_mid "\"" s t "\"" h

theorem serialize_str_ne_bool (s : String) (b : Bool) :
    serialize (.str s) ≠ serialize (.boolean b) := by
  by_cases hs : s = "NULL_VALUE"
  · cases b <;> simp [serialize, hs]
  · cases b
    · simp only [serialize, if_neg hs, Bool.false_eq_true, if_false]
      exact str_ne_of_head _ _ (Char.ofNat 34) 'f' _ _ (quoted_data s) rfl (by decide)
    · simp only [serialize, if_neg hs, if_true]
      exact str_ne_of_head _ _ (Char.ofNat 34) 't' _ _ (quoted_data s) rfl (by decide)

theorem serialize_str_ne_num (s : String) (n : Int) :
    serialize (.str s) ≠ serialize (.num n) := by
  obtain ⟨c, l, hd, hb⟩ := jsIntToString_head n
  have h110 : ('n').toNat = 110 := by decide
  have h34 : (Char.ofNat 34).toNat = 34 := by decide
  by_cases hs : s = "NULL_VALUE"
  · simp only [serialize, if_pos hs]
    refine str_ne_of_head _ _ 'n' c _ _ rfl hd ?_
    rcases hb with h | h <;> omega
  · simp only [serialize, if_neg hs]
    refine str_ne_of_head _ _ (Char.ofNat 34) c _ _ (quoted_data s) hd ?_
    rcases hb with h | h <;> omega

theorem serialize_bool_ne_num (b : Bool) (n : Int) :
    serialize (.boolean b) ≠ serialize (.num n) := by
  obtain ⟨c, l, hd, hb⟩ := jsIntToString_head n
  have h102 : ('f').toNat = 102 := by decide
  have h116 : ('t').toNat = 116 := by decide
  cases b
  · simp only [serialize, Bool.false_eq_true, if_false]
    refine str_ne_of_head _ _ 'f' c _ _ rfl hd ?_
    rcases hb with h | h <;> omega
  · simp only [serialize, if_true]
    refine str_ne_of_head _ _ 't' c _ _ rfl hd ?_
    rcases hb with h | h <;> omega

theorem jsIntToString_inj (m n : Int) (h : jsIntToString m = jsIntToString n) :
    m = n := by
  have h45 : (Char.ofNat 45).toNat = 45 := by decide
  cases m with
  | ofNat a =>
    cases n with
    | ofNat b => exact congrArg Int.ofNat (natToDec_inj a b h)
    | negSucc b =>
      obtain ⟨c, l, hd, hb⟩ := natToDec_head a
      exact absurd h (str_ne_of_head _ _ c (Char.ofNat 45) _ _ hd
        (by rw [show jsIntToString (Int.negSucc b) =
            ("-" : String) ++ natToDec (b + 1) from rfl, String.data_append]; rfl)
        (by omega))
  | negSucc a =>
    cases n with
    | ofNat b =>
      obtain ⟨c, l, hd, hb⟩ := natToDec_head b
      exact absurd h.symm (str_ne_of_head _ _ c (Char.ofNat 45) _ _ hd
        (by rw [show jsIntToString (Int.negSucc a) =
            ("-" : String) ++ natToDec (a + 1) from rfl, String.data_append]; rfl)
        (by omega))
    | negSucc b =>
      have h2 : natToDec (a + 1) = natToDec (b + 1) :=
        string_cancel_left "-" _ _ h
      have h3 := natToDec_inj _ _ h2
      exact congrArg Int.negSucc (by omega)

theorem serialize_head_inj (v1 v2 : FsValue)
    (h : serialize v1.objectValuesHead = serialize v2.objectValuesHead) :
    v1.objectValuesHead = v2.objectValuesHead := by
  cases v1 <;> cases v2 <;> simp only [FsValue.objectValuesHead] at h ⊢ <;>
    first
    | exact congrArg JsPrim.str (serialize_str_eq_str _ _ h)
    | exact congrArg JsPrim.num (jsIntToString_inj _ _ h)
    | exact absurd h (serialize_str_ne_bool _ _)
    | exact absurd h.symm (serialize_str_ne_bool _ _)
    | exact absurd h (serialize_str_ne_num _ _)
    | exact absurd h.symm (serialize_str_ne_num _ _)
    | exact absurd h (serialize_bool_ne_num _ _)
    | exact absurd h.symm (serialize_bool_ne_num _ _)
    | (rename_i a b; cases a <;> cases b <;>
        first
        | rfl
        | exact absurd h (by decide))

theorem objectValuesHead_eq_iff (v1 v2 : FsValue) :
    v1.objectValuesHead = v2.objectValuesHead ↔
      (v1 = v2 ∨ serializeCollision v1 v2) := by
  cases v1 <;> cases v2 <;>
    simp [FsValue.objectValuesHead, serializeCollision, eq_comm]

theorem serialize_objectValuesHead_eq_iff (v1 v2 : FsValue) :
    serialize v1.objectValuesHead = serialize v2.objectValuesHead ↔
      (v1 = v2 ∨ serializeCollision v1 v2) :=
  ⟨fun h => (objectValuesHead_eq_iff v1 v2).mp (serialize_head_inj v1 v2 h),
   fun h => congrArg serialize ((objectValuesHead_eq_iff v1 v2).mpr h)⟩

theorem jsJoin_cons (sep x : String) (l : List String) :
    jsJoin sep (x :: l) = x ++ jsTail sep l := by
  induction l generalizing x with
  | nil => simp [jsJoin, jsTail]
  | cons y ys ih =>
    rw [show jsJoin sep (x :: y :: ys) = x ++ sep ++ jsJoin sep (y :: ys) from rfl,
      ih y, jsTail]
    simp [String.append_assoc]

theorem jsJoin_append (sep : String) (a r : List String) (h : a ≠ []) :
    jsJoin sep (a ++ r) = jsJoin sep a ++ jsTail sep r := by
  induction a with
  | nil => exact absurd rfl h
  | cons x a1 ih =>
    cases a1 with
    | nil =>
      rw [List.singleton_append, jsJoin_cons]
      rfl
    | cons y a2 =>
      have ihh := ih (by simp)
      rw [List.cons_append,
        show jsJoin sep (x :: ((y :: a2) ++ r)) =
          x ++ sep ++ jsJoin sep ((y :: a2) ++ r) from rfl,
        ihh,
        show jsJoin sep (x :: y :: a2) = x ++ sep ++ jsJoin sep (y :: a2) from rfl]
      simp [String.append_assoc]

theorem jsJoin_split (sep : String) (a : List String) (x : String)
    (r : List String) (h : a ≠ []) :
    jsJoin sep (a ++ x :: r) = (jsJoin sep a ++ sep ++ x) ++ jsTail sep r := by
  rw [jsJoin_append sep a (x :: r) h, jsTail]
  simp [String.append_assoc]

theorem jsJoin_cancel_mid (sep : String) (a : List String) (x y : String)
    (r : List String)
    (h : jsJoin sep (a ++ x :: r) = jsJoin sep (a ++ y :: r)) : x = y := by
  cases a with
  | nil =>
    rw [List.nil_append, List.nil_append, jsJoin_cons, jsJoin_cons] at h
    exact string_cancel_right _ _ _ h
  | cons p ps =>
    rw [jsJoin_split sep (p :: ps) x r (by simp),
      jsJoin_split sep (p :: ps) y r (by simp)] at h
    exact string_cancel_mid _ _ _ _ h

theorem natToDec_length_pos (n : Nat) : 0 < (natToDec n).length := by
  obtain ⟨c, l, hd, _⟩ := natToDec_head n
  simp [String.length, hd]

theorem serialize_length_pos (v : JsPrim) : 0 < (serialize v).length := by
  cases v with
  | str s =>
    by_cases hs : s = "NULL_VALUE"
    · simp only [serialize, if_pos hs]
      decide
    · simp only [serialize, if_neg hs]
      rw [String.length_append, String.length_append]
      have h1 : ("\"" : String).length = 1 := rfl
      omega
  | num n =>
    cases n with
    | ofNat m => exact natToDec_length_pos m
    | negSucc m =>
      show 0 < (("-" : String) ++ natToDec (m + 1)).length
      rw [String.length_append]
      have := natToDec_length_pos (m + 1)
      omega
  | null => decide
  | undef => decide
  | boolean b => cases b <;> decide

theorem renderFilter_length_pos (f : FirestoreFilter) :
    0 < (renderFilter f).length := by
  cases f with
  | single g =>
    show 0 < (serializeFilter g).length
    unfold serializeFilter
    rw [String.length_append]
    have := serialize_length_pos g.value.objectValuesHead
    omega
  | compound o fs =>
    show 0 < (serializeCompoundFilter o fs).length
    unfold serializeCompoundFilter
    rw [String.length_append]
    have h1 : (")" : String).length = 1 := rfl
    omega

theorem filtersJoin_length_pos (pre suf : List FirestoreFilter)
    (f : FirestoreFilter) :
    (jsJoin " && " ((pre ++ f :: suf).map renderFilter)).length ≠ 0 := by
  cases pre with
  | nil =>
    rw [List.nil_append, List.map_cons, jsJoin_cons, String.length_append]
    have := renderFilter_length_pos f
    omega
  | cons p ps =>
    rw [List.cons_append, List.map_cons, jsJoin_cons, String.length_append]
    have := renderFilter_length_pos p
    omega

theorem serializeQuery_split (q : Firestore3Query)
    (h : (jsJoin " && " (q.filters.map renderFilter)).length ≠ 0) :
    serializeQuery q =
      (jsJoin "&" (serializeParamsPre q) ++ "&" ++
        ("filters=" ++ jsJoin " && " (q.filters.map renderFilter))) ++
      jsTail "&" (serializeParamsPost q) := by
  simp only [serializeQuery, serializeParamsPre, serializeParamsPost]
  rw [if_pos h]
  by_cases ho : (jsJoin ","
      (q.explicitOrderBy.map fun o => o.dir ++ "-" ++ jsJoin "/" o.field.segments)).length
      ≠ 0
  · rw [if_pos ho, if_pos ho]
    rcases Option.eq_none_or_eq_some q.limit with hL | ⟨n, hL⟩ <;>
      rcases Option.eq_none_or_eq_some q.startAt with hS | ⟨sa, hS⟩ <;>
      rcases Option.eq_none_or_eq_some q.endAt with hE | ⟨ea, hE⟩ <;>
      simp [hL, hS, hE, jsJoin, jsTail, String.append_assoc]
  · rw [if_neg ho, if_neg ho]
    rcases Option.eq_none_or_eq_some q.limit with hL | ⟨n, hL⟩ <;>
      rcases Option.eq_none_or_eq_some q.startAt with hS | ⟨sa, hS⟩ <;>
      rcases Option.eq_none_or_eq_some q.endAt with hE | ⟨ea, hE⟩ <;>
      simp [hL, hS, hE, jsJoin, jsTail, String.append_assoc]

/-- Restricted collision characterization: two queries that differ only in
one single-filter scalar value serialize equally iff the values are equal
or form an exceptional `serializeCollision` pair (null with the literal
string NULL_VALUE, a reference with the plain string equal to its resource
path). -/
theorem serializeQuery_filters_value_eq_iff (q : Firestore3Query)
    (pre suf : List FirestoreFilter) (fld : FieldPath) (o : String)
    (v1 v2 : FsValue) :
    serializeQuery { q with filters := pre ++ .single ⟨fld, o, v1⟩ :: suf } =
      serializeQuery { q with filters := pre ++ .single ⟨fld, o, v2⟩ :: suf } ↔
    (v1 = v2 ∨ serializeCollision v1 v2) := by
  have hpos1 : (jsJoin " && "
      (({ q with filters := pre ++ .single ⟨fld, o, v1⟩ :: suf } :
        Firestore3Query).filters.map renderFilter)).length ≠ 0 :=
    filtersJoin_length_pos pre suf _
  have hpos2 : (jsJoin " && "
      (({ q with filters := pre ++ .single ⟨fld, o, v2⟩ :: suf } :
        Firestore3Query).filters.map renderFilter)).length ≠ 0 :=
    filtersJoin_length_pos pre suf _
  have hpre : serializeParamsPre
      { q with filters := pre ++ .single ⟨fld, o, v1⟩ :: suf } =
      serializeParamsPre { q with filters := pre ++ .single ⟨fld, o, v2⟩ :: suf } :=
    rfl
  have hpost : serializeParamsPost
      { q with filters := pre ++ .single ⟨fld, o, v1⟩ :: suf } =
      serializeParamsPost { q with filters := pre ++ .single ⟨fld, o, v2⟩ :: suf } :=
    rfl
  constructor
  · intro h
    rw [serializeQuery_split _ hpos1, serializeQuery_split _ hpos2,
      hpre, hpost] at h
    have h2 := string_cancel_mid _ _ _ _ h
    have h3 := string_cancel_left _ _ _ h2
    have h4 : jsJoin " && " ((pre ++ .single ⟨fld, o, v1⟩ :: suf).map renderFilter) =
        jsJoin " && " ((pre ++ .single ⟨fld, o, v2⟩ :: suf).map renderFilter) := h3
    rw [List.map_append, List.map_cons, List.map_append, List.map_cons] at h4
    have h5 := jsJoin_cancel_mid " && " (pre.map renderFilter) _ _
      (suf.map renderFilter) h4
    have h6 : jsJoin "/" fld.segments ++ o ++
        serialize (FsValue.objectValuesHead v1) =
        jsJoin "/" fld.segments ++ o ++
        serialize (FsValue.objectValuesHead v2) := h5
    have h7 := string_cancel_left (jsJoin "/" fld.segments ++ o) _ _ h6
    exact (serialize_objectValuesHead_eq_iff v1 v2).mp h7
  · intro h
    have hs : serialize v1.objectValuesHead = serialize v2.objectValuesHead :=
      (serialize_objectValuesHead_eq_iff v1 v2).mpr h
    have hr : renderFilter (.single ⟨fld, o, v1⟩) =
        renderFilter (.single ⟨fld, o, v2⟩) := by
      show jsJoin "/" fld.segments ++ o ++ serialize v1.objectValuesHead = _
      rw [hs]
      rfl
    have hF : jsJoin " && "
        ((pre ++ FirestoreFilter.single ⟨fld, o, v1⟩ :: suf).map renderFilter) =
        jsJoin " && "
        ((pre ++ FirestoreFilter.single ⟨fld, o, v2⟩ :: suf).map renderFilter) := by
      rw [List.map_append, List.map_cons, List.map_append, List.map_cons, hr]
    have hF2 : jsJoin " && "
        (({ q with filters := pre ++ .single ⟨fld, o, v1⟩ :: suf } :
          Firestore3Query).filters.map renderFilter) =
        jsJoin " && "
        (({ q with filters := pre ++ .single ⟨fld, o, v2⟩ :: suf } :
          Firestore3Query).filters.map renderFilter) := hF
    rw [serializeQuery_split _ hpos1, serializeQuery_split _ hpos2,
      hpre, hpost, hF2]

